import Mathlib

/-!
Verification of the TINY-compiler recursive-descent parser (parse.c).

The parser is embedded shallowly: the C globals `token` (the one-token
lookahead), the remaining token stream supplied by the scanner, the
process-wide `Error` flag and a count of emitted diagnostics form an
explicit state record `PState` threaded through every rule.  Each parser
routine of parse.c becomes a fuel-indexed total function returning
`Option (Tree × PState)`; `none` means only "ran out of fuel", never a
parse error (parse errors are recorded in the state, as in the C code).
`Tree.nil` plays the role of the C null `TreeNode *` pointer.
-/

set_option maxRecDepth 10000
set_option linter.unnecessarySeqFocus false

namespace TINY

/-- Token kinds of the TINY language, from globals.h as used by parse.c:
reserved words, identifier, number, and the special symbols. -/
inductive TokType where
  | ENDFILE
  | IF
  | THEN
  | ELSE
  | END
  | REPEAT
  | UNTIL
  | READ
  | WRITE
  | WHILE
  | DO
  | ENDWHILE
  | FOR
  | TO
  | DOWNTO
  | ENDDO
  | ID
  | NUM
  | ASSIGN
  | SEMI
  | LPAREN
  | RPAREN
  | PLUS
  | MINUS
  | TIMES
  | OVER
  | MOD
  | LT
  | EQ
  | GT
  deriving DecidableEq

/-- A token as delivered by the scanner: its kind together with the
lexeme data the parser reads from `tokenString` — the identifier name
(`copyString(tokenString)`) and, for numbers, the value
(`atoi(tokenString)`, the libc conversion being external to src/). -/
structure Token where
  kind : TokType
  name : String
  val  : Int
  deriving DecidableEq

/-- The token `getToken` yields once the stream is exhausted. -/
def eofToken : Token := ⟨TokType.ENDFILE, "", 0⟩

/-- The parser's mutable state: the C global `token` (with its
`tokenString` data), the tokens the scanner has not yet delivered, the
process-wide `Error` flag, and the number of diagnostics emitted so far
(each `syntaxError` call prints exactly one diagnostic). -/
structure PState where
  token : Token
  rest  : List Token
  Error : Bool
  diags : Nat
  deriving DecidableEq

/-- `token = getToken()`: pull the next token from the scanner; an
exhausted source persistently yields the end-of-input token. -/
def getToken (s : PState) : PState :=
  match s.rest with
  | []      => { s with token := eofToken }
  | t :: ts => { s with token := t, rest := ts }

/-- parse.c lines 31-35: print one diagnostic and set `Error = TRUE`. -/
def syntaxError (s : PState) : PState :=
  { s with Error := true, diags := s.diags + 1 }

/-- parse.c lines 37-44, the `match` primitive (renamed: `match` is a
Lean keyword): advance on the expected kind, otherwise record a
diagnostic and leave the cursor where it is. -/
def pmatch (expected : TokType) (s : PState) : PState :=
  if s.token.kind = expected then getToken s else syntaxError s

/-- Node kinds: the statement kinds and expression kinds of globals.h. -/
inductive NodeKind where
  | IfK
  | RepeatK
  | AssignK
  | ReadK
  | WriteK
  | WhileK
  | DoWhileK
  | ForK
  | OpK
  | ConstK
  | IdK
  deriving DecidableEq

/-- The `attr` union of a tree node: an operator token, an integer
value, a name, or nothing assigned yet. -/
inductive Attr where
  | none
  | op (t : TokType)
  | val (v : Int)
  | name (s : String)
  deriving DecidableEq

/-- The C `TreeNode`: three child pointers, a sibling pointer, the node
kind and the attribute.  `nil` is the C null pointer. -/
inductive Tree where
  | nil
  | node (kind : NodeKind) (attr : Attr) (c0 c1 c2 sibling : Tree)
  deriving DecidableEq

/-- Whether a tree is the null pointer. -/
def Tree.isNil : Tree → Bool
  | Tree.nil => true
  | _ => false

/-- Overwrite a node's sibling pointer (`p->sibling = q`); writing
through a null pointer does not occur in the parser, a null receiver is
left as is. -/
def Tree.withSibling : Tree → Tree → Tree
  | Tree.nil, _ => Tree.nil
  | Tree.node k a c0 c1 c2 _, q => Tree.node k a c0 c1 c2 q

/-- Link a list of statement nodes into a sibling chain, as the tail
pointer `p` of `stmt_sequence` does one node at a time. -/
def sibChain : List Tree → Tree
  | [] => Tree.nil
  | t :: ts => Tree.withSibling t (sibChain ts)

/-- The chain `stmt_sequence` ends up with: the first statement `t`
followed by the later ones, where null results are skipped (`if
(q!=NULL)`) and a null head is replaced by the first non-null later
statement (`if (t==NULL) t = p = q`). -/
def seqLink (t : Tree) (qs : List Tree) : Tree :=
  sibChain ((t :: qs).filter (fun q => !q.isNil))

/-- The terminator set of the `stmt_sequence` loop, parse.c lines 51-52. -/
def isSeqTerminator (k : TokType) : Bool :=
  k = TokType.ENDFILE ∨ k = TokType.END ∨ k = TokType.ELSE ∨
  k = TokType.UNTIL ∨ k = TokType.WHILE ∨ k = TokType.ENDWHILE ∨
  k = TokType.ENDDO

/-- parse.c lines 267-269: consume an optional `to` at the direction
position of a `for` statement. -/
def for_direction_to (s : PState) : PState :=
  if s.token.kind = TokType.TO then pmatch TokType.TO s else s

/-- parse.c lines 271-273: consume an optional `downto` at the
direction position of a `for` statement. -/
def for_direction_downto (s : PState) : PState :=
  if s.token.kind = TokType.DOWNTO then pmatch TokType.DOWNTO s else s

/-- parse.c lines 295-296: diagnose trailing input when the lookahead
after the top statement sequence is not end-of-input. -/
def trailingCheck (s : PState) : PState :=
  if s.token.kind = TokType.ENDFILE then s else syntaxError s

mutual

/-- parse.c lines 46-65, `stmt_sequence`: parse a first statement, then
the semicolon-separated rest, and link the non-null results. -/
def stmt_sequence : Nat → PState → Option (Tree × PState)
  | 0, _ => none
  | n+1, s => do
    let (t, s1) ← statement n s
    let (qs, s2) ← stmt_seq_loop n s1
    pure (seqLink t qs, s2)

/-- The while loop of `stmt_sequence` (parse.c lines 51-63): while the
lookahead is no terminator, `match(SEMI)` and parse one more statement;
the parsed statements are returned in order for `seqLink`. -/
def stmt_seq_loop : Nat → PState → Option (List Tree × PState)
  | 0, _ => none
  | n+1, s =>
    if isSeqTerminator s.token.kind then pure ([], s)
    else do
      let s1 := pmatch TokType.SEMI s
      let (q, s2) ← statement n s1
      let (qs, s3) ← stmt_seq_loop n s2
      pure (q :: qs, s3)

/-- parse.c lines 67-84, `statement`: dispatch on the lookahead; on an
unrecognized statement start record a diagnostic, advance one token and
yield the null tree. -/
def statement : Nat → PState → Option (Tree × PState)
  | 0, _ => none
  | n+1, s =>
    match s.token.kind with
    | TokType.IF     => if_stmt n s
    | TokType.REPEAT => repeat_stmt n s
    | TokType.ID     => assign_stmt n s
    | TokType.READ   => read_stmt n s
    | TokType.WRITE  => write_stmt n s
    | TokType.WHILE  => while_stmt n s
    | TokType.DO     => dowhile_stmt n s
    | TokType.FOR    => for_stmt n s
    | _ => pure (Tree.nil, getToken (syntaxError s))

/-- parse.c lines 86-100, `if_stmt`:
`if ( exp ) then seq [else seq] end`. -/
def if_stmt : Nat → PState → Option (Tree × PState)
  | 0, _ => none
  | n+1, s => do
    let s1 := pmatch TokType.IF s
    let s2 := pmatch TokType.LPAREN s1
    let (c0, s3) ← exp n s2
    let s4 := pmatch TokType.RPAREN s3
    let s5 := pmatch TokType.THEN s4
    let (c1, s6) ← stmt_sequence n s5
    let (c2, s7) ← if_else_part n s6
    let s8 := pmatch TokType.END s7
    pure (Tree.node NodeKind.IfK Attr.none c0 c1 c2 Tree.nil, s8)

/-- The optional else branch of `if_stmt` (parse.c lines 94-97): when
the lookahead is `else`, `match(ELSE)` and the else statement sequence;
otherwise child 2 stays null. -/
def if_else_part : Nat → PState → Option (Tree × PState)
  | 0, _ => none
  | n+1, s =>
    if s.token.kind = TokType.ELSE then do
      let s1 := pmatch TokType.ELSE s
      stmt_sequence n s1
    else pure (Tree.nil, s)

/-- parse.c lines 102-109, `repeat_stmt`: `repeat seq until exp`. -/
def repeat_stmt : Nat → PState → Option (Tree × PState)
  | 0, _ => none
  | n+1, s => do
    let s1 := pmatch TokType.REPEAT s
    let (c0, s2) ← stmt_sequence n s1
    let s3 := pmatch TokType.UNTIL s2
    let (c1, s4) ← exp n s3
    pure (Tree.node NodeKind.RepeatK Attr.none c0 c1 Tree.nil Tree.nil, s4)

/-- parse.c lines 111-119, `assign_stmt`: the name is captured from the
lookahead only when it is an identifier, then `match(ID)`,
`match(ASSIGN)` and the right-hand expression. -/
def assign_stmt : Nat → PState → Option (Tree × PState)
  | 0, _ => none
  | n+1, s => do
    let nm := if s.token.kind = TokType.ID then Attr.name s.token.name
              else Attr.none
    let s1 := pmatch TokType.ID s
    let s2 := pmatch TokType.ASSIGN s1
    let (c0, s3) ← exp n s2
    pure (Tree.node NodeKind.AssignK nm c0 Tree.nil Tree.nil Tree.nil, s3)

/-- parse.c lines 121-128, `read_stmt`: `read identifier`. -/
def read_stmt : Nat → PState → Option (Tree × PState)
  | 0, _ => none
  | _+1, s => do
    let s1 := pmatch TokType.READ s
    let nm := if s1.token.kind = TokType.ID then Attr.name s1.token.name
              else Attr.none
    let s2 := pmatch TokType.ID s1
    pure (Tree.node NodeKind.ReadK nm Tree.nil Tree.nil Tree.nil Tree.nil, s2)

/-- parse.c lines 130-135, `write_stmt`: `write exp`. -/
def write_stmt : Nat → PState → Option (Tree × PState)
  | 0, _ => none
  | n+1, s => do
    let s1 := pmatch TokType.WRITE s
    let (c0, s2) ← exp n s1
    pure (Tree.node NodeKind.WriteK Attr.none c0 Tree.nil Tree.nil Tree.nil, s2)

/-- parse.c lines 137-151, `exp`: one `simple_exp`, then at most one
relational operator (`<`, `=`, `>`) with one more `simple_exp`. -/
def exp : Nat → PState → Option (Tree × PState)
  | 0, _ => none
  | n+1, s => do
    let (t, s1) ← simple_exp n s
    exp_rel n t s1

/-- The relational step of `exp` (parse.c lines 139-149): when the
lookahead is `<`, `=` or `>`, consume it and parse exactly one more
`simple_exp` as the right operand; otherwise return `t` unchanged. -/
def exp_rel : Nat → Tree → PState → Option (Tree × PState)
  | 0, _, _ => none
  | n+1, t, s =>
    if s.token.kind = TokType.LT ∨ s.token.kind = TokType.EQ ∨
       s.token.kind = TokType.GT then do
      let o := s.token.kind
      let s1 := pmatch o s
      let (r, s2) ← simple_exp n s1
      pure (Tree.node NodeKind.OpK (Attr.op o) t r Tree.nil Tree.nil, s2)
    else pure (t, s)

/-- parse.c lines 153-166, `simple_exp`: one `term`, then the
additive-operator fold. -/
def simple_exp : Nat → PState → Option (Tree × PState)
  | 0, _ => none
  | n+1, s => do
    let (t, s1) ← term n s
    simple_exp_loop n t s1

/-- The while loop of `simple_exp`: fold `+`/`-` operators
left-associatively, the accumulator becoming the left child. -/
def simple_exp_loop : Nat → Tree → PState → Option (Tree × PState)
  | 0, _, _ => none
  | n+1, t, s =>
    if s.token.kind = TokType.PLUS ∨ s.token.kind = TokType.MINUS then do
      let o := s.token.kind
      let s1 := pmatch o s
      let (r, s2) ← term n s1
      simple_exp_loop n (Tree.node NodeKind.OpK (Attr.op o) t r Tree.nil Tree.nil) s2
    else pure (t, s)

/-- parse.c lines 168-181, `term`: one `factor`, then the
multiplicative-operator fold. -/
def term : Nat → PState → Option (Tree × PState)
  | 0, _ => none
  | n+1, s => do
    let (t, s1) ← factor n s
    term_loop n t s1

/-- The while loop of `term`: fold `*`, `/`, `%` left-associatively. -/
def term_loop : Nat → Tree → PState → Option (Tree × PState)
  | 0, _, _ => none
  | n+1, t, s =>
    if s.token.kind = TokType.TIMES ∨ s.token.kind = TokType.OVER ∨
       s.token.kind = TokType.MOD then do
      let o := s.token.kind
      let s1 := pmatch o s
      let (r, s2) ← factor n s1
      term_loop n (Tree.node NodeKind.OpK (Attr.op o) t r Tree.nil Tree.nil) s2
    else pure (t, s)

/-- parse.c lines 183-210, `factor`: a number, an identifier, a
parenthesized expression, or the unrecognized-factor error branch which
records a diagnostic and advances one token. -/
def factor : Nat → PState → Option (Tree × PState)
  | 0, _ => none
  | n+1, s =>
    match s.token.kind with
    | TokType.NUM =>
      pure (Tree.node NodeKind.ConstK (Attr.val s.token.val)
              Tree.nil Tree.nil Tree.nil Tree.nil,
            pmatch TokType.NUM s)
    | TokType.ID =>
      pure (Tree.node NodeKind.IdK (Attr.name s.token.name)
              Tree.nil Tree.nil Tree.nil Tree.nil,
            pmatch TokType.ID s)
    | TokType.LPAREN => do
      let s1 := pmatch TokType.LPAREN s
      let (t, s2) ← exp n s1
      let s3 := pmatch TokType.RPAREN s2
      pure (t, s3)
    | _ => pure (Tree.nil, getToken (syntaxError s))

/-- parse.c lines 217-229, `while_stmt`: `while exp do seq endwhile`. -/
def while_stmt : Nat → PState → Option (Tree × PState)
  | 0, _ => none
  | n+1, s => do
    let s1 := pmatch TokType.WHILE s
    let (c0, s2) ← exp n s1
    let s3 := pmatch TokType.DO s2
    let (c1, s4) ← stmt_sequence n s3
    let s5 := pmatch TokType.ENDWHILE s4
    pure (Tree.node NodeKind.WhileK Attr.none c0 c1 Tree.nil Tree.nil, s5)

/-- parse.c lines 236-249, `dowhile_stmt`: `do seq while ( exp )`. -/
def dowhile_stmt : Nat → PState → Option (Tree × PState)
  | 0, _ => none
  | n+1, s => do
    let s1 := pmatch TokType.DO s
    let (c0, s2) ← stmt_sequence n s1
    let s3 := pmatch TokType.WHILE s2
    let s4 := pmatch TokType.LPAREN s3
    let (c1, s5) ← exp n s4
    let s6 := pmatch TokType.RPAREN s5
    pure (Tree.node NodeKind.DoWhileK Attr.none c0 c1 Tree.nil Tree.nil, s6)

/-- parse.c lines 256-283, `for_stmt`:
`for identifier := simple_exp ... simple_exp do seq enddo`, where each
of `to` and `downto` is consumed by its own independent `if`. -/
def for_stmt : Nat → PState → Option (Tree × PState)
  | 0, _ => none
  | n+1, s => do
    let s1 := pmatch TokType.FOR s
    let nm := if s1.token.kind = TokType.ID then Attr.name s1.token.name
              else Attr.none
    let s2 := pmatch TokType.ID s1
    let s3 := pmatch TokType.ASSIGN s2
    let (c0, s4) ← simple_exp n s3
    let s5 := for_direction_to s4
    let s6 := for_direction_downto s5
    let (c1, s7) ← simple_exp n s6
    let s8 := pmatch TokType.DO s7
    let (c2, s9) ← stmt_sequence n s8
    let s10 := pmatch TokType.ENDDO s9
    pure (Tree.node NodeKind.ForK nm c0 c1 c2 Tree.nil, s10)

end

/-- The state of the C parser before `parse()` runs: no lookahead has
been fetched (the initial lookahead content is arbitrary; `eofToken`
stands for the uninitialized global), the whole stream is pending, the
error flag clear and no diagnostic emitted. -/
def initState (toks : List Token) : PState :=
  { token := eofToken, rest := toks, Error := false, diags := 0 }

/-- parse.c lines 291-298 run from an arbitrary pre-`parse()` state:
prime the lookahead, parse one statement sequence, and diagnose
trailing input when the lookahead is not end-of-input afterward. -/
def parseFromState (n : Nat) (s : PState) : Option (Tree × PState) := do
  let s0 := getToken s
  let (t, s1) ← stmt_sequence n s0
  pure (t, trailingCheck s1)

/-- parse.c lines 291-298, `parse`, as a function of the token stream. -/
def parse (n : Nat) (toks : List Token) : Option (Tree × PState) :=
  parseFromState n (initState toks)

/-! ### State-evolution invariant

`Steps s s'` records what any piece of the parser does to the shared
state: it never grows the pending input (measured by `mu`), it never
removes diagnostics, and the error flag afterwards is set exactly when
it was already set or a new diagnostic was emitted. -/

/-- Remaining-input measure.  A mid-stream lookahead counts one and the
pending tokens two each, so that `getToken` strictly decreases the
measure whenever it is positive (also when the current lookahead is the
end-of-input token while tokens are still pending). -/
def mu (s : PState) : Nat :=
  2 * s.rest.length + (if s.token.kind = TokType.ENDFILE then 0 else 1)

/-- Evolution of the parser state across any parser routine. -/
def Steps (s t : PState) : Prop :=
  mu t ≤ mu s ∧ s.diags ≤ t.diags ∧
    t.Error = (s.Error || decide (s.diags < t.diags))

theorem Steps.refl (s : PState) : Steps s s :=
  ⟨le_rfl, le_rfl, by simp⟩

theorem Steps.trans {a b c : PState} (h1 : Steps a b) (h2 : Steps b c) :
    Steps a c := by
  obtain ⟨m1, d1, e1⟩ := h1
  obtain ⟨m2, d2, e2⟩ := h2
  refine ⟨le_trans m2 m1, le_trans d1 d2, ?_⟩
  rw [e2, e1]
  cases a.Error with
  | true => simp
  | false =>
    by_cases hab : a.diags < b.diags <;> by_cases hbc : b.diags < c.diags <;>
      simp [hab, hbc] <;> omega

theorem steps_getToken (s : PState) : Steps s (getToken s) := by
  refine ⟨?_, ?_, ?_⟩ <;> cases h : s.rest <;>
    simp [getToken, mu, h, eofToken] <;> split <;> omega

theorem steps_syntaxError (s : PState) : Steps s (syntaxError s) :=
  ⟨by simp [mu, syntaxError], by simp [syntaxError], by simp [syntaxError]⟩

theorem steps_pmatch (e : TokType) (s : PState) : Steps s (pmatch e s) := by
  unfold pmatch
  split
  · exact steps_getToken s
  · exact steps_syntaxError s

theorem steps_for_direction_to (s : PState) : Steps s (for_direction_to s) := by
  unfold for_direction_to
  split
  · exact steps_pmatch _ s
  · exact Steps.refl s

theorem steps_for_direction_downto (s : PState) :
    Steps s (for_direction_downto s) := by
  unfold for_direction_downto
  split
  · exact steps_pmatch _ s
  · exact Steps.refl s

theorem steps_trailingCheck (s : PState) : Steps s (trailingCheck s) := by
  unfold trailingCheck
  split
  · exact Steps.refl s
  · exact steps_syntaxError s

/-- Every parser routine, at every fuel, evolves the state along
`Steps`. -/
theorem steps_all : ∀ n : Nat,
    (∀ s t s', stmt_sequence n s = some (t, s') → Steps s s') ∧
    (∀ s q s', stmt_seq_loop n s = some (q, s') → Steps s s') ∧
    (∀ s t s', statement n s = some (t, s') → Steps s s') ∧
    (∀ s t s', if_stmt n s = some (t, s') → Steps s s') ∧
    (∀ s t s', if_else_part n s = some (t, s') → Steps s s') ∧
    (∀ s t s', repeat_stmt n s = some (t, s') → Steps s s') ∧
    (∀ s t s', assign_stmt n s = some (t, s') → Steps s s') ∧
    (∀ s t s', read_stmt n s = some (t, s') → Steps s s') ∧
    (∀ s t s', write_stmt n s = some (t, s') → Steps s s') ∧
    (∀ s t s', exp n s = some (t, s') → Steps s s') ∧
    (∀ t0 s t s', exp_rel n t0 s = some (t, s') → Steps s s') ∧
    (∀ s t s', simple_exp n s = some (t, s') → Steps s s') ∧
    (∀ t0 s t s', simple_exp_loop n t0 s = some (t, s') → Steps s s') ∧
    (∀ s t s', term n s = some (t, s') → Steps s s') ∧
    (∀ t0 s t s', term_loop n t0 s = some (t, s') → Steps s s') ∧
    (∀ s t s', factor n s = some (t, s') → Steps s s') ∧
    (∀ s t s', while_stmt n s = some (t, s') → Steps s s') ∧
    (∀ s t s', dowhile_stmt n s = some (t, s') → Steps s s') ∧
    (∀ s t s', for_stmt n s = some (t, s') → Steps s s') := by
  intro n
  induction n with
  | zero =>
    refine ⟨?_, ?_, ?_, ?_, ?_, ?_, ?_, ?_, ?_, ?_, ?_, ?_, ?_, ?_, ?_, ?_,
      ?_, ?_, ?_⟩ <;> intros <;>
      simp_all [stmt_sequence, stmt_seq_loop, statement, if_stmt, if_else_part,
        repeat_stmt, assign_stmt, read_stmt, write_stmt, exp, exp_rel,
        simple_exp, simple_exp_loop, term, term_loop, factor, while_stmt,
        dowhile_stmt, for_stmt]
  | succ n ih =>
    obtain ⟨ihseq, ihloop, ihstmt, ihif, ihelse, ihrep, ihasn, ihread, ihwrt,
      ihexp, ihrel, ihsi, ihsil, ihterm, ihterml, ihfac, ihwhl, ihdow, ihfor⟩ := ih
    refine ⟨?_, ?_, ?_, ?_, ?_, ?_, ?_, ?_, ?_, ?_, ?_, ?_, ?_, ?_, ?_, ?_,
      ?_, ?_, ?_⟩
    -- stmt_sequence
    · intro s t s' h
      simp only [stmt_sequence, bind, Option.bind_eq_some, pure,
        Option.some.injEq, Prod.mk.injEq] at h
      obtain ⟨⟨t1, s1⟩, h1, ⟨qs, s2⟩, h2, _, rfl⟩ := h
      exact (ihstmt _ _ _ h1).trans (ihloop _ _ _ h2)
    -- stmt_seq_loop
    · intro s q s' h
      simp only [stmt_seq_loop] at h
      split at h
      · simp only [pure, Option.some.injEq, Prod.mk.injEq] at h
        obtain ⟨_, rfl⟩ := h
        exact Steps.refl s
      · simp only [bind, Option.bind_eq_some, pure, Option.some.injEq,
          Prod.mk.injEq] at h
        obtain ⟨⟨q1, s2⟩, h1, ⟨qs, s3⟩, h2, _, rfl⟩ := h
        exact ((steps_pmatch _ s).trans (ihstmt _ _ _ h1)).trans
          (ihloop _ _ _ h2)
    -- statement
    · intro s t s' h
      simp only [statement] at h
      split at h
      · exact ihif _ _ _ h
      · exact ihrep _ _ _ h
      · exact ihasn _ _ _ h
      · exact ihread _ _ _ h
      · exact ihwrt _ _ _ h
      · exact ihwhl _ _ _ h
      · exact ihdow _ _ _ h
      · exact ihfor _ _ _ h
      · simp only [pure, Option.some.injEq, Prod.mk.injEq] at h
        obtain ⟨_, rfl⟩ := h
        exact (steps_syntaxError s).trans (steps_getToken _)
    -- if_stmt
    · intro s t s' h
      simp only [if_stmt, bind, Option.bind_eq_some, pure, Option.some.injEq,
        Prod.mk.injEq] at h
      obtain ⟨⟨c0, s3⟩, h1, ⟨c1, s6⟩, h2, ⟨c2, s7⟩, h3, _, rfl⟩ := h
      exact (((((steps_pmatch _ s).trans (steps_pmatch _ _)).trans
        (ihexp _ _ _ h1)).trans (((steps_pmatch _ _).trans
        (steps_pmatch _ _)).trans (ihseq _ _ _ h2))).trans
        (ihelse _ _ _ h3)).trans (steps_pmatch _ _)
    -- if_else_part
    · intro s t s' h
      simp only [if_else_part] at h
      split at h
      · exact (steps_pmatch _ s).trans (ihseq _ _ _ h)
      · simp only [pure, Option.some.injEq, Prod.mk.injEq] at h
        obtain ⟨_, rfl⟩ := h
        exact Steps.refl s
    -- repeat_stmt
    · intro s t s' h
      simp only [repeat_stmt, bind, Option.bind_eq_some, pure,
        Option.some.injEq, Prod.mk.injEq] at h
      obtain ⟨⟨c0, s2⟩, h1, ⟨c1, s4⟩, h2, _, rfl⟩ := h
      exact (((steps_pmatch _ s).trans (ihseq _ _ _ h1)).trans
        ((steps_pmatch _ _).trans (ihexp _ _ _ h2)))
    -- assign_stmt
    · intro s t s' h
      simp only [assign_stmt, bind, Option.bind_eq_some, pure,
        Option.some.injEq, Prod.mk.injEq] at h
      obtain ⟨⟨c0, s3⟩, h1, _, rfl⟩ := h
      exact ((steps_pmatch _ s).trans (steps_pmatch _ _)).trans
        (ihexp _ _ _ h1)
    -- read_stmt
    · intro s t s' h
      simp only [read_stmt, pure, Option.some.injEq, Prod.mk.injEq] at h
      obtain ⟨_, rfl⟩ := h
      exact (steps_pmatch _ s).trans (steps_pmatch _ _)
    -- write_stmt
    · intro s t s' h
      simp only [write_stmt, bind, Option.bind_eq_some, pure,
        Option.some.injEq, Prod.mk.injEq] at h
      obtain ⟨⟨c0, s2⟩, h1, _, rfl⟩ := h
      exact (steps_pmatch _ s).trans (ihexp _ _ _ h1)
    -- exp
    · intro s t s' h
      simp only [exp, bind, Option.bind_eq_some] at h
      obtain ⟨⟨t1, s1⟩, h1, h2⟩ := h
      exact (ihsi _ _ _ h1).trans (ihrel _ _ _ _ h2)
    -- exp_rel
    · intro t0 s t s' h
      simp only [exp_rel] at h
      split at h
      · simp only [bind, Option.bind_eq_some, pure, Option.some.injEq,
          Prod.mk.injEq] at h
        obtain ⟨⟨r, s2⟩, h1, _, rfl⟩ := h
        exact (steps_pmatch _ s).trans (ihsi _ _ _ h1)
      · simp only [pure, Option.some.injEq, Prod.mk.injEq] at h
        obtain ⟨_, rfl⟩ := h
        exact Steps.refl s
    -- simple_exp
    · intro s t s' h
      simp only [simple_exp, bind, Option.bind_eq_some] at h
      obtain ⟨⟨t1, s1⟩, h1, h2⟩ := h
      exact (ihterm _ _ _ h1).trans (ihsil _ _ _ _ h2)
    -- simple_exp_loop
    · intro t0 s t s' h
      simp only [simple_exp_loop] at h
      split at h
      · simp only [bind, Option.bind_eq_some] at h
        obtain ⟨⟨r, s2⟩, h1, h2⟩ := h
        exact ((steps_pmatch _ s).trans (ihterm _ _ _ h1)).trans
          (ihsil _ _ _ _ h2)
      · simp only [pure, Option.some.injEq, Prod.mk.injEq] at h
        obtain ⟨_, rfl⟩ := h
        exact Steps.refl s
    -- term
    · intro s t s' h
      simp only [term, bind, Option.bind_eq_some] at h
      obtain ⟨⟨t1, s1⟩, h1, h2⟩ := h
      exact (ihfac _ _ _ h1).trans (ihterml _ _ _ _ h2)
    -- term_loop
    · intro t0 s t s' h
      simp only [term_loop] at h
      split at h
      · simp only [bind, Option.bind_eq_some] at h
        obtain ⟨⟨r, s2⟩, h1, h2⟩ := h
        exact ((steps_pmatch _ s).trans (ihfac _ _ _ h1)).trans
          (ihterml _ _ _ _ h2)
      · simp only [pure, Option.some.injEq, Prod.mk.injEq] at h
        obtain ⟨_, rfl⟩ := h
        exact Steps.refl s
    -- factor
    · intro s t s' h
      simp only [factor] at h
      split at h
      · simp only [pure, Option.some.injEq, Prod.mk.injEq] at h
        obtain ⟨_, rfl⟩ := h
        exact steps_pmatch _ s
      · simp only [pure, Option.some.injEq, Prod.mk.injEq] at h
        obtain ⟨_, rfl⟩ := h
        exact steps_pmatch _ s
      · simp only [bind, Option.bind_eq_some, pure, Option.some.injEq,
          Prod.mk.injEq] at h
        obtain ⟨⟨t1, s2⟩, h1, _, rfl⟩ := h
        exact ((steps_pmatch _ s).trans (ihexp _ _ _ h1)).trans
          (steps_pmatch _ _)
      · simp only [pure, Option.some.injEq, Prod.mk.injEq] at h
        obtain ⟨_, rfl⟩ := h
        exact (steps_syntaxError s).trans (steps_getToken _)
    -- while_stmt
    · intro s t s' h
      simp only [while_stmt, bind, Option.bind_eq_some, pure,
        Option.some.injEq, Prod.mk.injEq] at h
      obtain ⟨⟨c0, s2⟩, h1, ⟨c1, s4⟩, h2, _, rfl⟩ := h
      exact ((((steps_pmatch _ s).trans (ihexp _ _ _ h1)).trans
        ((steps_pmatch _ _).trans (ihseq _ _ _ h2))).trans
        (steps_pmatch _ _))
    -- dowhile_stmt
    · intro s t s' h
      simp only [dowhile_stmt, bind, Option.bind_eq_some, pure,
        Option.some.injEq, Prod.mk.injEq] at h
      obtain ⟨⟨c0, s2⟩, h1, ⟨c1, s5⟩, h2, _, rfl⟩ := h
      exact ((((steps_pmatch _ s).trans (ihseq _ _ _ h1)).trans
        (((steps_pmatch _ _).trans (steps_pmatch _ _)).trans
        (ihexp _ _ _ h2))).trans (steps_pmatch _ _))
    -- for_stmt
    · intro s t s' h
      simp only [for_stmt, bind, Option.bind_eq_some, pure,
        Option.some.injEq, Prod.mk.injEq] at h
      obtain ⟨⟨c0, s4⟩, h1, ⟨c1, s7⟩, h2, ⟨c2, s9⟩, h3, _, rfl⟩ := h
      exact ((((((steps_pmatch _ s).trans (steps_pmatch _ _)).trans
        (steps_pmatch _ _)).trans (ihsi _ _ _ h1)).trans
        (((steps_for_direction_to _).trans
          (steps_for_direction_downto _)).trans (ihsi _ _ _ h2))).trans
        ((steps_pmatch _ _).trans (ihseq _ _ _ h3))).trans
        (steps_pmatch _ _)

end TINY

namespace TINY

theorem steps_stmt_sequence {n : Nat} {s : PState} {t : Tree} {s' : PState}
    (h : stmt_sequence n s = some (t, s')) : Steps s s' :=
  (steps_all n).1 s t s' h

theorem steps_stmt_seq_loop {n : Nat} {s : PState} {q : List Tree}
    {s' : PState} (h : stmt_seq_loop n s = some (q, s')) : Steps s s' :=
  (steps_all n).2.1 s q s' h

theorem steps_statement {n : Nat} {s : PState} {t : Tree} {s' : PState}
    (h : statement n s = some (t, s')) : Steps s s' :=
  (steps_all n).2.2.1 s t s' h

theorem steps_if_else_part {n : Nat} {s : PState} {t : Tree} {s' : PState}
    (h : if_else_part n s = some (t, s')) : Steps s s' :=
  (steps_all n).2.2.2.2.1 s t s' h

theorem steps_exp {n : Nat} {s : PState} {t : Tree} {s' : PState}
    (h : exp n s = some (t, s')) : Steps s s' :=
  (steps_all n).2.2.2.2.2.2.2.2.2.1 s t s' h

theorem steps_exp_rel {n : Nat} {t0 : Tree} {s : PState} {t : Tree}
    {s' : PState} (h : exp_rel n t0 s = some (t, s')) : Steps s s' :=
  (steps_all n).2.2.2.2.2.2.2.2.2.2.1 t0 s t s' h

theorem steps_simple_exp {n : Nat} {s : PState} {t : Tree} {s' : PState}
    (h : simple_exp n s = some (t, s')) : Steps s s' :=
  (steps_all n).2.2.2.2.2.2.2.2.2.2.2.1 s t s' h

theorem steps_simple_exp_loop {n : Nat} {t0 : Tree} {s : PState} {t : Tree}
    {s' : PState} (h : simple_exp_loop n t0 s = some (t, s')) : Steps s s' :=
  (steps_all n).2.2.2.2.2.2.2.2.2.2.2.2.1 t0 s t s' h

theorem steps_term {n : Nat} {s : PState} {t : Tree} {s' : PState}
    (h : term n s = some (t, s')) : Steps s s' :=
  (steps_all n).2.2.2.2.2.2.2.2.2.2.2.2.2.1 s t s' h

theorem steps_term_loop {n : Nat} {t0 : Tree} {s : PState} {t : Tree}
    {s' : PState} (h : term_loop n t0 s = some (t, s')) : Steps s s' :=
  (steps_all n).2.2.2.2.2.2.2.2.2.2.2.2.2.2.1 t0 s t s' h

theorem steps_factor {n : Nat} {s : PState} {t : Tree} {s' : PState}
    (h : factor n s = some (t, s')) : Steps s s' :=
  (steps_all n).2.2.2.2.2.2.2.2.2.2.2.2.2.2.2.1 s t s' h

/-- A lookahead that is not end-of-input makes the measure positive. -/
theorem mu_pos {s : PState} (h : s.token.kind ≠ TokType.ENDFILE) :
    1 ≤ mu s := by
  unfold mu
  simp [h]

/-- `getToken` strictly shrinks the measure whenever it is positive. -/
theorem mu_getToken_lt {s : PState} (h : 1 ≤ mu s) :
    mu (getToken s) < mu s := by
  unfold mu at h ⊢
  cases hr : s.rest with
  | nil =>
    simp [getToken, hr, eofToken] at h ⊢
    omega
  | cons t ts =>
    simp [getToken, hr] at h ⊢
    split <;> split <;> omega

/-- `match` on the expected kind is exactly a `getToken`. -/
theorem pmatch_consume {e : TokType} {s : PState} (h : s.token.kind = e) :
    pmatch e s = getToken s := by
  simp [pmatch, h]

/-- `match` on a mismatch is exactly a recorded diagnostic. -/
theorem pmatch_mismatch {e : TokType} {s : PState} (h : s.token.kind ≠ e) :
    pmatch e s = syntaxError s := by
  simp [pmatch, h]

/-- Consuming the (non-end-of-input) lookahead strictly shrinks the
measure. -/
theorem mu_pmatch_lt {e : TokType} {s : PState} (h : s.token.kind = e)
    (he : e ≠ TokType.ENDFILE) : mu (pmatch e s) < mu s := by
  rw [pmatch_consume h]
  exact mu_getToken_lt (mu_pos (h ▸ he))

end TINY

namespace TINY

/-! ### Strict progress

When `statement` is entered on a lookahead that is not end-of-input, it
always consumes at least one token: each dispatched statement form
starts by matching its own leading keyword, and the error branch skips
one token.  This is what makes the `stmt_sequence` loop terminate. -/

theorem if_stmt_strict {n : Nat} {s : PState} {t : Tree} {s' : PState}
    (hk : s.token.kind = TokType.IF) (h : if_stmt n s = some (t, s')) :
    mu s' < mu s := by
  cases n with
  | zero => simp [if_stmt] at h
  | succ n =>
    simp only [if_stmt, bind, Option.bind_eq_some, pure, Option.some.injEq,
      Prod.mk.injEq] at h
    obtain ⟨⟨c0, s3⟩, h1, ⟨c1, s6⟩, h2, ⟨c2, s7⟩, h3, _, rfl⟩ := h
    have S : Steps (pmatch TokType.IF s) (pmatch TokType.END s7) :=
      ((((steps_pmatch _ _).trans (steps_exp h1)).trans
        (((steps_pmatch _ _).trans (steps_pmatch _ _)).trans
          (steps_stmt_sequence h2))).trans (steps_if_else_part h3)).trans
        (steps_pmatch _ _)
    exact lt_of_le_of_lt S.1 (mu_pmatch_lt hk (by decide))

theorem repeat_stmt_strict {n : Nat} {s : PState} {t : Tree} {s' : PState}
    (hk : s.token.kind = TokType.REPEAT)
    (h : repeat_stmt n s = some (t, s')) : mu s' < mu s := by
  cases n with
  | zero => simp [repeat_stmt] at h
  | succ n =>
    simp only [repeat_stmt, bind, Option.bind_eq_some, pure,
      Option.some.injEq, Prod.mk.injEq] at h
    obtain ⟨⟨c0, s2⟩, h1, ⟨c1, s4⟩, h2, _, rfl⟩ := h
    have S : Steps (pmatch TokType.REPEAT s) s4 :=
      (steps_stmt_sequence h1).trans ((steps_pmatch _ _).trans (steps_exp h2))
    exact lt_of_le_of_lt S.1 (mu_pmatch_lt hk (by decide))

theorem assign_stmt_strict {n : Nat} {s : PState} {t : Tree} {s' : PState}
    (hk : s.token.kind = TokType.ID)
    (h : assign_stmt n s = some (t, s')) : mu s' < mu s := by
  cases n with
  | zero => simp [assign_stmt] at h
  | succ n =>
    simp only [assign_stmt, bind, Option.bind_eq_some, pure,
      Option.some.injEq, Prod.mk.injEq] at h
    obtain ⟨⟨c0, s3⟩, h1, _, rfl⟩ := h
    have S : Steps (pmatch TokType.ID s) s3 :=
      (steps_pmatch _ _).trans (steps_exp h1)
    exact lt_of_le_of_lt S.1 (mu_pmatch_lt hk (by decide))

theorem read_stmt_strict {n : Nat} {s : PState} {t : Tree} {s' : PState}
    (hk : s.token.kind = TokType.READ)
    (h : read_stmt n s = some (t, s')) : mu s' < mu s := by
  cases n with
  | zero => simp [read_stmt] at h
  | succ n =>
    simp only [read_stmt, pure, Option.some.injEq, Prod.mk.injEq] at h
    obtain ⟨_, rfl⟩ := h
    exact lt_of_le_of_lt (steps_pmatch _ _).1 (mu_pmatch_lt hk (by decide))

theorem write_stmt_strict {n : Nat} {s : PState} {t : Tree} {s' : PState}
    (hk : s.token.kind = TokType.WRITE)
    (h : write_stmt n s = some (t, s')) : mu s' < mu s := by
  cases n with
  | zero => simp [write_stmt] at h
  | succ n =>
    simp only [write_stmt, bind, Option.bind_eq_some, pure,
      Option.some.injEq, Prod.mk.injEq] at h
    obtain ⟨⟨c0, s2⟩, h1, _, rfl⟩ := h
    exact lt_of_le_of_lt (steps_exp h1).1 (mu_pmatch_lt hk (by decide))

theorem while_stmt_strict {n : Nat} {s : PState} {t : Tree} {s' : PState}
    (hk : s.token.kind = TokType.WHILE)
    (h : while_stmt n s = some (t, s')) : mu s' < mu s := by
  cases n with
  | zero => simp [while_stmt] at h
  | succ n =>
    simp only [while_stmt, bind, Option.bind_eq_some, pure,
      Option.some.injEq, Prod.mk.injEq] at h
    obtain ⟨⟨c0, s2⟩, h1, ⟨c1, s4⟩, h2, _, rfl⟩ := h
    have S : Steps (pmatch TokType.WHILE s) (pmatch TokType.ENDWHILE s4) :=
      (((steps_exp h1).trans ((steps_pmatch _ _).trans
        (steps_stmt_sequence h2))).trans (steps_pmatch _ _))
    exact lt_of_le_of_lt S.1 (mu_pmatch_lt hk (by decide))

theorem dowhile_stmt_strict {n : Nat} {s : PState} {t : Tree} {s' : PState}
    (hk : s.token.kind = TokType.DO)
    (h : dowhile_stmt n s = some (t, s')) : mu s' < mu s := by
  cases n with
  | zero => simp [dowhile_stmt] at h
  | succ n =>
    simp only [dowhile_stmt, bind, Option.bind_eq_some, pure,
      Option.some.injEq, Prod.mk.injEq] at h
    obtain ⟨⟨c0, s2⟩, h1, ⟨c1, s5⟩, h2, _, rfl⟩ := h
    have S : Steps (pmatch TokType.DO s) (pmatch TokType.RPAREN s5) :=
      (((steps_stmt_sequence h1).trans (((steps_pmatch _ _).trans
        (steps_pmatch _ _)).trans (steps_exp h2))).trans (steps_pmatch _ _))
    exact lt_of_le_of_lt S.1 (mu_pmatch_lt hk (by decide))

theorem for_stmt_strict {n : Nat} {s : PState} {t : Tree} {s' : PState}
    (hk : s.token.kind = TokType.FOR)
    (h : for_stmt n s = some (t, s')) : mu s' < mu s := by
  cases n with
  | zero => simp [for_stmt] at h
  | succ n =>
    simp only [for_stmt, bind, Option.bind_eq_some, pure,
      Option.some.injEq, Prod.mk.injEq] at h
    obtain ⟨⟨c0, s4⟩, h1, ⟨c1, s7⟩, h2, ⟨c2, s9⟩, h3, _, rfl⟩ := h
    have S : Steps (pmatch TokType.FOR s) (pmatch TokType.ENDDO s9) :=
      (((((steps_pmatch _ _).trans (steps_pmatch _ _)).trans
        (steps_simple_exp h1)).trans (((steps_for_direction_to _).trans
          (steps_for_direction_downto _)).trans
          (steps_simple_exp h2))).trans ((steps_pmatch _ _).trans
          (steps_stmt_sequence h3))).trans (steps_pmatch _ _)
    exact lt_of_le_of_lt S.1 (mu_pmatch_lt hk (by decide))

/-- `statement` on a lookahead other than end-of-input always consumes
at least one token. -/
theorem statement_strict {n : Nat} {s : PState} {t : Tree} {s' : PState}
    (hk : s.token.kind ≠ TokType.ENDFILE)
    (h : statement n s = some (t, s')) : mu s' < mu s := by
  cases n with
  | zero => simp [statement] at h
  | succ n =>
    simp only [statement] at h
    split at h
    · exact if_stmt_strict (by assumption) h
    · exact repeat_stmt_strict (by assumption) h
    · exact assign_stmt_strict (by assumption) h
    · exact read_stmt_strict (by assumption) h
    · exact write_stmt_strict (by assumption) h
    · exact while_stmt_strict (by assumption) h
    · exact dowhile_stmt_strict (by assumption) h
    · exact for_stmt_strict (by assumption) h
    · simp only [pure, Option.some.injEq, Prod.mk.injEq] at h
      obtain ⟨_, rfl⟩ := h
      have : mu (syntaxError s) = mu s := by simp [mu, syntaxError]
      rw [show getToken (syntaxError s) = getToken (syntaxError s) from rfl]
      calc mu (getToken (syntaxError s)) < mu (syntaxError s) :=
            mu_getToken_lt (by rw [this]; exact mu_pos hk)
        _ = mu s := this

end TINY
namespace TINY

/-- A zero measure pins down the state: end-of-input lookahead and an
exhausted stream. -/
theorem mu_zero {s : PState} (h : mu s = 0) :
    s.token.kind = TokType.ENDFILE ∧ s.rest = [] := by
  unfold mu at h
  constructor
  · by_contra hk
    simp [hk] at h
  · cases hr : s.rest with
    | nil => rfl
    | cons a l => rw [hr] at h; simp at h

/-- Fuel sufficiency: with fuel linear in the remaining-input measure,
no parser routine runs out.  Proved by induction on the measure bound:
each statement form consumes its leading keyword before recursing, each
loop iteration consumes its operator or separator, and the error
branches always advance, so every same-measure chain of rule
invocations has bounded depth. -/
theorem fuel_all : ∀ k : Nat,
    (∀ t0 n s, mu s ≤ k → 8*k+1 ≤ n → (term_loop n t0 s).isSome) ∧
    (∀ n s, mu s ≤ k → 8*k+2 ≤ n → (factor n s).isSome) ∧
    (∀ n s, mu s ≤ k → 8*k+3 ≤ n → (term n s).isSome) ∧
    (∀ t0 n s, mu s ≤ k → 8*k+1 ≤ n → (simple_exp_loop n t0 s).isSome) ∧
    (∀ n s, mu s ≤ k → 8*k+4 ≤ n → (simple_exp n s).isSome) ∧
    (∀ t0 n s, mu s ≤ k → 8*k+1 ≤ n → (exp_rel n t0 s).isSome) ∧
    (∀ n s, mu s ≤ k → 8*k+5 ≤ n → (exp n s).isSome) ∧
    (∀ n s, 1 ≤ n → (read_stmt n s).isSome) ∧
    (∀ n s, mu s ≤ k → s.token.kind = TokType.WRITE → 8*k+1 ≤ n →
      (write_stmt n s).isSome) ∧
    (∀ n s, mu s ≤ k → s.token.kind = TokType.ID → 8*k+1 ≤ n →
      (assign_stmt n s).isSome) ∧
    (∀ n s, mu s ≤ k → 8*k+1 ≤ n → (if_else_part n s).isSome) ∧
    (∀ n s, mu s ≤ k → s.token.kind = TokType.IF → 8*k+2 ≤ n →
      (if_stmt n s).isSome) ∧
    (∀ n s, mu s ≤ k → s.token.kind = TokType.REPEAT → 8*k+2 ≤ n →
      (repeat_stmt n s).isSome) ∧
    (∀ n s, mu s ≤ k → s.token.kind = TokType.WHILE → 8*k+2 ≤ n →
      (while_stmt n s).isSome) ∧
    (∀ n s, mu s ≤ k → s.token.kind = TokType.DO → 8*k+2 ≤ n →
      (dowhile_stmt n s).isSome) ∧
    (∀ n s, mu s ≤ k → s.token.kind = TokType.FOR → 8*k+2 ≤ n →
      (for_stmt n s).isSome) ∧
    (∀ n s, mu s ≤ k → 8*k+3 ≤ n → (statement n s).isSome) ∧
    (∀ n s, mu s ≤ k → 8*k+4 ≤ n → (stmt_seq_loop n s).isSome) ∧
    (∀ n s, mu s ≤ k → 8*k+5 ≤ n → (stmt_sequence n s).isSome) := by
  intro k
  induction k with
  | zero =>
    have Hloop : ∀ t0 n s, mu s ≤ 0 → 1 ≤ n → (term_loop n t0 s).isSome := by
      intro t0 n s hmu hn
      obtain ⟨hk, _⟩ := mu_zero (Nat.le_zero.mp hmu)
      obtain ⟨m, rfl⟩ : ∃ m, n = m + 1 := ⟨n-1, by omega⟩
      simp [term_loop, hk]
    have Hfac : ∀ n s, mu s ≤ 0 → 2 ≤ n → (factor n s).isSome := by
      intro n s hmu hn
      obtain ⟨hk, _⟩ := mu_zero (Nat.le_zero.mp hmu)
      obtain ⟨m, rfl⟩ : ∃ m, n = m + 1 := ⟨n-1, by omega⟩
      simp [factor, hk]
    have Hterm : ∀ n s, mu s ≤ 0 → 3 ≤ n → (term n s).isSome := by
      intro n s hmu hn
      obtain ⟨m, rfl⟩ : ∃ m, n = m + 1 := ⟨n-1, by omega⟩
      obtain ⟨⟨t1, s1⟩, h1⟩ :=
        Option.isSome_iff_exists.mp (Hfac m s hmu (by omega))
      have m1 : mu s1 ≤ 0 := le_trans (steps_factor h1).1 hmu
      obtain ⟨⟨t2, s2⟩, h2⟩ :=
        Option.isSome_iff_exists.mp (Hloop t1 m s1 m1 (by omega))
      simp [term, bind, h1, h2]
    have Hsil : ∀ t0 n s, mu s ≤ 0 → 1 ≤ n →
        (simple_exp_loop n t0 s).isSome := by
      intro t0 n s hmu hn
      obtain ⟨hk, _⟩ := mu_zero (Nat.le_zero.mp hmu)
      obtain ⟨m, rfl⟩ : ∃ m, n = m + 1 := ⟨n-1, by omega⟩
      simp [simple_exp_loop, hk]
    have Hsi : ∀ n s, mu s ≤ 0 → 4 ≤ n → (simple_exp n s).isSome := by
      intro n s hmu hn
      obtain ⟨m, rfl⟩ : ∃ m, n = m + 1 := ⟨n-1, by omega⟩
      obtain ⟨⟨t1, s1⟩, h1⟩ :=
        Option.isSome_iff_exists.mp (Hterm m s hmu (by omega))
      have m1 : mu s1 ≤ 0 := le_trans (steps_term h1).1 hmu
      obtain ⟨⟨t2, s2⟩, h2⟩ :=
        Option.isSome_iff_exists.mp (Hsil t1 m s1 m1 (by omega))
      simp [simple_exp, bind, h1, h2]
    have Hrel : ∀ t0 n s, mu s ≤ 0 → 1 ≤ n → (exp_rel n t0 s).isSome := by
      intro t0 n s hmu hn
      obtain ⟨hk, _⟩ := mu_zero (Nat.le_zero.mp hmu)
      obtain ⟨m, rfl⟩ : ∃ m, n = m + 1 := ⟨n-1, by omega⟩
      simp [exp_rel, hk]
    have Hexp : ∀ n s, mu s ≤ 0 → 5 ≤ n → (exp n s).isSome := by
      intro n s hmu hn
      obtain ⟨m, rfl⟩ : ∃ m, n = m + 1 := ⟨n-1, by omega⟩
      obtain ⟨⟨t1, s1⟩, h1⟩ :=
        Option.isSome_iff_exists.mp (Hsi m s hmu (by omega))
      have m1 : mu s1 ≤ 0 := le_trans (steps_simple_exp h1).1 hmu
      obtain ⟨⟨t2, s2⟩, h2⟩ :=
        Option.isSome_iff_exists.mp (Hrel t1 m s1 m1 (by omega))
      simp [exp, bind, h1, h2]
    have Hread : ∀ n s, 1 ≤ (n : Nat) → (read_stmt n s).isSome := by
      intro n s hn
      obtain ⟨m, rfl⟩ : ∃ m, n = m + 1 := ⟨n-1, by omega⟩
      simp [read_stmt]
    have Helse : ∀ n s, mu s ≤ 0 → 1 ≤ n → (if_else_part n s).isSome := by
      intro n s hmu hn
      obtain ⟨hk, _⟩ := mu_zero (Nat.le_zero.mp hmu)
      obtain ⟨m, rfl⟩ : ∃ m, n = m + 1 := ⟨n-1, by omega⟩
      simp [if_else_part, hk]
    have Hstmt : ∀ n s, mu s ≤ 0 → 3 ≤ n → (statement n s).isSome := by
      intro n s hmu hn
      obtain ⟨hk, _⟩ := mu_zero (Nat.le_zero.mp hmu)
      obtain ⟨m, rfl⟩ : ∃ m, n = m + 1 := ⟨n-1, by omega⟩
      simp [statement, hk]
    have Hsql : ∀ n s, mu s ≤ 0 → 4 ≤ n → (stmt_seq_loop n s).isSome := by
      intro n s hmu hn
      obtain ⟨hk, _⟩ := mu_zero (Nat.le_zero.mp hmu)
      obtain ⟨m, rfl⟩ : ∃ m, n = m + 1 := ⟨n-1, by omega⟩
      simp [stmt_seq_loop, isSeqTerminator, hk]
    have Hseq : ∀ n s, mu s ≤ 0 → 5 ≤ n → (stmt_sequence n s).isSome := by
      intro n s hmu hn
      obtain ⟨m, rfl⟩ : ∃ m, n = m + 1 := ⟨n-1, by omega⟩
      obtain ⟨⟨t1, s1⟩, h1⟩ :=
        Option.isSome_iff_exists.mp (Hstmt m s hmu (by omega))
      have m1 : mu s1 ≤ 0 := le_trans (steps_statement h1).1 hmu
      obtain ⟨⟨t2, s2⟩, h2⟩ :=
        Option.isSome_iff_exists.mp (Hsql m s1 m1 (by omega))
      simp [stmt_sequence, bind, h1, h2]
    refine ⟨Hloop, Hfac, Hterm, Hsil, Hsi, Hrel, Hexp, Hread, ?_, ?_, Helse,
      ?_, ?_, ?_, ?_, ?_, Hstmt, Hsql, Hseq⟩ <;> intro n s hmu hk hn <;>
      obtain ⟨he, _⟩ := mu_zero (Nat.le_zero.mp hmu) <;> rw [he] at hk <;>
      exact absurd hk (by decide)
  | succ k ih =>
    obtain ⟨ihloop, ihfac, ihterm, ihsil, ihsi, ihrel, ihexp, ihread, ihwrt,
      ihasn, ihelse, ihif, ihrep, ihwhl, ihdow, ihfor, ihstmt, ihsql,
      ihseq⟩ := ih
    have Hloop : ∀ t0 n s, mu s ≤ k+1 → 8*(k+1)+1 ≤ n →
        (term_loop n t0 s).isSome := by
      intro t0 n s hmu hn
      obtain ⟨m, rfl⟩ : ∃ m, n = m + 1 := ⟨n-1, by omega⟩
      by_cases hop : s.token.kind = TokType.TIMES ∨
          s.token.kind = TokType.OVER ∨ s.token.kind = TokType.MOD
      · have hlt : mu (pmatch s.token.kind s) < mu s :=
          mu_pmatch_lt rfl (by rcases hop with h | h | h <;> rw [h] <;> decide)
        obtain ⟨⟨t1, s2⟩, h1⟩ := Option.isSome_iff_exists.mp
          (ihfac m (pmatch s.token.kind s) (by omega) (by omega))
        have m2 : mu s2 ≤ k := le_trans (steps_factor h1).1 (by omega)
        obtain ⟨⟨t2, s3⟩, h2⟩ := Option.isSome_iff_exists.mp
          (ihloop (Tree.node NodeKind.OpK (Attr.op s.token.kind) t0 t1
            Tree.nil Tree.nil) m s2 m2 (by omega))
        simp [term_loop, hop, bind, h1, h2]
      · simp [term_loop, hop]
    have Hfac : ∀ n s, mu s ≤ k+1 → 8*(k+1)+2 ≤ n → (factor n s).isSome := by
      intro n s hmu hn
      obtain ⟨m, rfl⟩ : ∃ m, n = m + 1 := ⟨n-1, by omega⟩
      by_cases hNum : s.token.kind = TokType.NUM
      · simp [factor, hNum]
      by_cases hId : s.token.kind = TokType.ID
      · simp [factor, hId]
      by_cases hLp : s.token.kind = TokType.LPAREN
      · have hlt : mu (pmatch TokType.LPAREN s) < mu s :=
          mu_pmatch_lt hLp (by decide)
        obtain ⟨⟨t1, s2⟩, h1⟩ := Option.isSome_iff_exists.mp
          (ihexp m (pmatch TokType.LPAREN s) (by omega) (by omega))
        simp [factor, hLp, bind, h1]
      · have : factor (m+1) s = some (Tree.nil, getToken (syntaxError s)) := by
          simp only [factor]
          rfl
        simp [this]
    have Hterm : ∀ n s, mu s ≤ k+1 → 8*(k+1)+3 ≤ n → (term n s).isSome := by
      intro n s hmu hn
      obtain ⟨m, rfl⟩ : ∃ m, n = m + 1 := ⟨n-1, by omega⟩
      obtain ⟨⟨t1, s1⟩, h1⟩ :=
        Option.isSome_iff_exists.mp (Hfac m s hmu (by omega))
      have m1 : mu s1 ≤ k+1 := le_trans (steps_factor h1).1 hmu
      obtain ⟨⟨t2, s2⟩, h2⟩ :=
        Option.isSome_iff_exists.mp (Hloop t1 m s1 m1 (by omega))
      simp [term, bind, h1, h2]
    have Hsil : ∀ t0 n s, mu s ≤ k+1 → 8*(k+1)+1 ≤ n →
        (simple_exp_loop n t0 s).isSome := by
      intro t0 n s hmu hn
      obtain ⟨m, rfl⟩ : ∃ m, n = m + 1 := ⟨n-1, by omega⟩
      by_cases hop : s.token.kind = TokType.PLUS ∨
          s.token.kind = TokType.MINUS
      · have hlt : mu (pmatch s.token.kind s) < mu s :=
          mu_pmatch_lt rfl (by rcases hop with h | h <;> rw [h] <;> decide)
        obtain ⟨⟨t1, s2⟩, h1⟩ := Option.isSome_iff_exists.mp
          (ihterm m (pmatch s.token.kind s) (by omega) (by omega))
        have m2 : mu s2 ≤ k := le_trans (steps_term h1).1 (by omega)
        obtain ⟨⟨t2, s3⟩, h2⟩ := Option.isSome_iff_exists.mp
          (ihsil (Tree.node NodeKind.OpK (Attr.op s.token.kind) t0 t1
            Tree.nil Tree.nil) m s2 m2 (by omega))
        simp [simple_exp_loop, hop, bind, h1, h2]
      · simp [simple_exp_loop, hop]
    have Hsi : ∀ n s, mu s ≤ k+1 → 8*(k+1)+4 ≤ n →
        (simple_exp n s).isSome := by
      intro n s hmu hn
      obtain ⟨m, rfl⟩ : ∃ m, n = m + 1 := ⟨n-1, by omega⟩
      obtain ⟨⟨t1, s1⟩, h1⟩ :=
        Option.isSome_iff_exists.mp (Hterm m s hmu (by omega))
      have m1 : mu s1 ≤ k+1 := le_trans (steps_term h1).1 hmu
      obtain ⟨⟨t2, s2⟩, h2⟩ :=
        Option.isSome_iff_exists.mp (Hsil t1 m s1 m1 (by omega))
      simp [simple_exp, bind, h1, h2]
    have Hrel : ∀ t0 n s, mu s ≤ k+1 → 8*(k+1)+1 ≤ n →
        (exp_rel n t0 s).isSome := by
      intro t0 n s hmu hn
      obtain ⟨m, rfl⟩ : ∃ m, n = m + 1 := ⟨n-1, by omega⟩
      by_cases hop : s.token.kind = TokType.LT ∨ s.token.kind = TokType.EQ ∨
          s.token.kind = TokType.GT
      · have hlt : mu (pmatch s.token.kind s) < mu s :=
          mu_pmatch_lt rfl (by rcases hop with h | h | h <;> rw [h] <;> decide)
        obtain ⟨⟨t1, s2⟩, h1⟩ := Option.isSome_iff_exists.mp
          (ihsi m (pmatch s.token.kind s) (by omega) (by omega))
        simp [exp_rel, hop, bind, h1]
      · simp [exp_rel, hop]
    have Hexp : ∀ n s, mu s ≤ k+1 → 8*(k+1)+5 ≤ n → (exp n s).isSome := by
      intro n s hmu hn
      obtain ⟨m, rfl⟩ : ∃ m, n = m + 1 := ⟨n-1, by omega⟩
      obtain ⟨⟨t1, s1⟩, h1⟩ :=
        Option.isSome_iff_exists.mp (Hsi m s hmu (by omega))
      have m1 : mu s1 ≤ k+1 := le_trans (steps_simple_exp h1).1 hmu
      obtain ⟨⟨t2, s2⟩, h2⟩ :=
        Option.isSome_iff_exists.mp (Hrel t1 m s1 m1 (by omega))
      simp [exp, bind, h1, h2]
    have Hread : ∀ n s, 1 ≤ (n : Nat) → (read_stmt n s).isSome := by
      intro n s hn
      obtain ⟨m, rfl⟩ : ∃ m, n = m + 1 := ⟨n-1, by omega⟩
      simp [read_stmt]
    have Hwrt : ∀ n s, mu s ≤ k+1 → s.token.kind = TokType.WRITE →
        8*(k+1)+1 ≤ n → (write_stmt n s).isSome := by
      intro n s hmu hk hn
      obtain ⟨m, rfl⟩ : ∃ m, n = m + 1 := ⟨n-1, by omega⟩
      have hlt : mu (pmatch TokType.WRITE s) < mu s :=
        mu_pmatch_lt hk (by decide)
      obtain ⟨⟨t1, s2⟩, h1⟩ := Option.isSome_iff_exists.mp
        (ihexp m (pmatch TokType.WRITE s) (by omega) (by omega))
      simp [write_stmt, bind, h1]
    have Hasn : ∀ n s, mu s ≤ k+1 → s.token.kind = TokType.ID →
        8*(k+1)+1 ≤ n → (assign_stmt n s).isSome := by
      intro n s hmu hk hn
      obtain ⟨m, rfl⟩ : ∃ m, n = m + 1 := ⟨n-1, by omega⟩
      have hlt : mu (pmatch TokType.ID s) < mu s :=
        mu_pmatch_lt hk (by decide)
      have h2 : mu (pmatch TokType.ASSIGN (pmatch TokType.ID s)) ≤ k :=
        le_trans (steps_pmatch _ _).1 (by omega)
      obtain ⟨⟨t1, s3⟩, h1⟩ := Option.isSome_iff_exists.mp
        (ihexp m _ h2 (by omega))
      simp [assign_stmt, bind, h1]
    have Helse : ∀ n s, mu s ≤ k+1 → 8*(k+1)+1 ≤ n →
        (if_else_part n s).isSome := by
      intro n s hmu hn
      obtain ⟨m, rfl⟩ : ∃ m, n = m + 1 := ⟨n-1, by omega⟩
      by_cases hE : s.token.kind = TokType.ELSE
      · have hlt : mu (pmatch TokType.ELSE s) < mu s :=
          mu_pmatch_lt hE (by decide)
        obtain ⟨⟨t1, s2⟩, h1⟩ := Option.isSome_iff_exists.mp
          (ihseq m (pmatch TokType.ELSE s) (by omega) (by omega))
        simp [if_else_part, hE, bind, h1]
      · simp [if_else_part, hE]
    have Hif : ∀ n s, mu s ≤ k+1 → s.token.kind = TokType.IF →
        8*(k+1)+2 ≤ n → (if_stmt n s).isSome := by
      intro n s hmu hk hn
      obtain ⟨m, rfl⟩ : ∃ m, n = m + 1 := ⟨n-1, by omega⟩
      have hlt : mu (pmatch TokType.IF s) < mu s := mu_pmatch_lt hk (by decide)
      have h2 : mu (pmatch TokType.LPAREN (pmatch TokType.IF s)) ≤ k :=
        le_trans (steps_pmatch _ _).1 (by omega)
      obtain ⟨⟨c0, s3⟩, h1⟩ := Option.isSome_iff_exists.mp
        (ihexp m _ h2 (by omega))
      have m3 : mu s3 ≤ k := le_trans (steps_exp h1).1 h2
      have m5 : mu (pmatch TokType.THEN (pmatch TokType.RPAREN s3)) ≤ k :=
        le_trans (steps_pmatch _ _).1 (le_trans (steps_pmatch _ _).1 m3)
      obtain ⟨⟨c1, s6⟩, h2s⟩ := Option.isSome_iff_exists.mp
        (ihseq m _ m5 (by omega))
      have m6 : mu s6 ≤ k := le_trans (steps_stmt_sequence h2s).1 m5
      obtain ⟨⟨c2, s7⟩, h3⟩ := Option.isSome_iff_exists.mp
        (ihelse m s6 m6 (by omega))
      simp [if_stmt, bind, h1, h2s, h3]
    have Hrep : ∀ n s, mu s ≤ k+1 → s.token.kind = TokType.REPEAT →
        8*(k+1)+2 ≤ n → (repeat_stmt n s).isSome := by
      intro n s hmu hk hn
      obtain ⟨m, rfl⟩ : ∃ m, n = m + 1 := ⟨n-1, by omega⟩
      have hlt : mu (pmatch TokType.REPEAT s) < mu s :=
        mu_pmatch_lt hk (by decide)
      obtain ⟨⟨c0, s2⟩, h1⟩ := Option.isSome_iff_exists.mp
        (ihseq m (pmatch TokType.REPEAT s) (by omega) (by omega))
      have m2 : mu (pmatch TokType.UNTIL s2) ≤ k :=
        le_trans (steps_pmatch _ _).1
          (le_trans (steps_stmt_sequence h1).1 (by omega))
      obtain ⟨⟨c1, s4⟩, h2⟩ := Option.isSome_iff_exists.mp
        (ihexp m _ m2 (by omega))
      simp [repeat_stmt, bind, h1, h2]
    have Hwhl : ∀ n s, mu s ≤ k+1 → s.token.kind = TokType.WHILE →
        8*(k+1)+2 ≤ n → (while_stmt n s).isSome := by
      intro n s hmu hk hn
      obtain ⟨m, rfl⟩ : ∃ m, n = m + 1 := ⟨n-1, by omega⟩
      have hlt : mu (pmatch TokType.WHILE s) < mu s :=
        mu_pmatch_lt hk (by decide)
      obtain ⟨⟨c0, s2⟩, h1⟩ := Option.isSome_iff_exists.mp
        (ihexp m (pmatch TokType.WHILE s) (by omega) (by omega))
      have m2 : mu (pmatch TokType.DO s2) ≤ k :=
        le_trans (steps_pmatch _ _).1 (le_trans (steps_exp h1).1 (by omega))
      obtain ⟨⟨c1, s4⟩, h2⟩ := Option.isSome_iff_exists.mp
        (ihseq m _ m2 (by omega))
      simp [while_stmt, bind, h1, h2]
    have Hdow : ∀ n s, mu s ≤ k+1 → s.token.kind = TokType.DO →
        8*(k+1)+2 ≤ n → (dowhile_stmt n s).isSome := by
      intro n s hmu hk hn
      obtain ⟨m, rfl⟩ : ∃ m, n = m + 1 := ⟨n-1, by omega⟩
      have hlt : mu (pmatch TokType.DO s) < mu s := mu_pmatch_lt hk (by decide)
      obtain ⟨⟨c0, s2⟩, h1⟩ := Option.isSome_iff_exists.mp
        (ihseq m (pmatch TokType.DO s) (by omega) (by omega))
      have m2 : mu (pmatch TokType.LPAREN (pmatch TokType.WHILE s2)) ≤ k :=
        le_trans (steps_pmatch _ _).1 (le_trans (steps_pmatch _ _).1
          (le_trans (steps_stmt_sequence h1).1 (by omega)))
      obtain ⟨⟨c1, s5⟩, h2⟩ := Option.isSome_iff_exists.mp
        (ihexp m _ m2 (by omega))
      simp [dowhile_stmt, bind, h1, h2]
    have Hfor : ∀ n s, mu s ≤ k+1 → s.token.kind = TokType.FOR →
        8*(k+1)+2 ≤ n → (for_stmt n s).isSome := by
      intro n s hmu hk hn
      obtain ⟨m, rfl⟩ : ∃ m, n = m + 1 := ⟨n-1, by omega⟩
      have hlt : mu (pmatch TokType.FOR s) < mu s :=
        mu_pmatch_lt hk (by decide)
      have h3 : mu (pmatch TokType.ASSIGN (pmatch TokType.ID
          (pmatch TokType.FOR s))) ≤ k :=
        le_trans (steps_pmatch _ _).1 (le_trans (steps_pmatch _ _).1
          (by omega))
      obtain ⟨⟨c0, s4⟩, h1⟩ := Option.isSome_iff_exists.mp
        (ihsi m _ h3 (by omega))
      have m6 : mu (for_direction_downto (for_direction_to s4)) ≤ k :=
        le_trans (steps_for_direction_downto _).1
          (le_trans (steps_for_direction_to _).1
            (le_trans (steps_simple_exp h1).1 h3))
      obtain ⟨⟨c1, s7⟩, h2⟩ := Option.isSome_iff_exists.mp
        (ihsi m _ m6 (by omega))
      have m8 : mu (pmatch TokType.DO s7) ≤ k :=
        le_trans (steps_pmatch _ _).1 (le_trans (steps_simple_exp h2).1 m6)
      obtain ⟨⟨c2, s9⟩, h3s⟩ := Option.isSome_iff_exists.mp
        (ihseq m _ m8 (by omega))
      simp [for_stmt, bind, h1, h2, h3s]
    have Hstmt : ∀ n s, mu s ≤ k+1 → 8*(k+1)+3 ≤ n →
        (statement n s).isSome := by
      intro n s hmu hn
      obtain ⟨m, rfl⟩ : ∃ m, n = m + 1 := ⟨n-1, by omega⟩
      by_cases h : s.token.kind = TokType.IF
      · have := Hif m s hmu h (by omega)
        simpa [statement, h] using this
      by_cases h2 : s.token.kind = TokType.REPEAT
      · have := Hrep m s hmu h2 (by omega)
        simpa [statement, h2] using this
      by_cases h3 : s.token.kind = TokType.ID
      · have := Hasn m s hmu h3 (by omega)
        simpa [statement, h3] using this
      by_cases h4 : s.token.kind = TokType.READ
      · have := Hread m s (by omega)
        simpa [statement, h4] using this
      by_cases h5 : s.token.kind = TokType.WRITE
      · have := Hwrt m s hmu h5 (by omega)
        simpa [statement, h5] using this
      by_cases h6 : s.token.kind = TokType.WHILE
      · have := Hwhl m s hmu h6 (by omega)
        simpa [statement, h6] using this
      by_cases h7 : s.token.kind = TokType.DO
      · have := Hdow m s hmu h7 (by omega)
        simpa [statement, h7] using this
      by_cases h8 : s.token.kind = TokType.FOR
      · have := Hfor m s hmu h8 (by omega)
        simpa [statement, h8] using this
      · have : statement (m+1) s = some (Tree.nil, getToken (syntaxError s)) := by
          simp only [statement]
          rfl
        simp [this]
    have Hsql : ∀ n s, mu s ≤ k+1 → 8*(k+1)+4 ≤ n →
        (stmt_seq_loop n s).isSome := by
      intro n s hmu hn
      obtain ⟨m, rfl⟩ : ∃ m, n = m + 1 := ⟨n-1, by omega⟩
      by_cases hT : isSeqTerminator s.token.kind
      · simp [stmt_seq_loop, hT]
      · have hne : s.token.kind ≠ TokType.ENDFILE := by
          intro hc
          exact hT (by simp [isSeqTerminator, hc])
        have hmu1 : mu (pmatch TokType.SEMI s) ≤ k+1 :=
          le_trans (steps_pmatch _ _).1 hmu
        obtain ⟨⟨q, s2⟩, h1⟩ := Option.isSome_iff_exists.mp
          (Hstmt m (pmatch TokType.SEMI s) hmu1 (by omega))
        have m2 : mu s2 ≤ k := by
          by_cases hS : s.token.kind = TokType.SEMI
          · have hc := pmatch_consume (e := TokType.SEMI) hS
            have hp : mu (pmatch TokType.SEMI s) < mu s := by
              rw [hc]
              exact mu_getToken_lt (mu_pos hne)
            have := (steps_statement h1).1
            omega
          · have hc := pmatch_mismatch (e := TokType.SEMI) hS
            have hks : (pmatch TokType.SEMI s).token.kind ≠ TokType.ENDFILE := by
              rw [hc]
              exact hne
            have hscc : mu (pmatch TokType.SEMI s) = mu s := by
              rw [hc]
              simp [mu, syntaxError]
            have := statement_strict hks h1
            omega
        obtain ⟨⟨qs, s3⟩, h2⟩ := Option.isSome_iff_exists.mp
          (ihsql m s2 m2 (by omega))
        simp [stmt_seq_loop, hT, bind, h1, h2]
    have Hseq : ∀ n s, mu s ≤ k+1 → 8*(k+1)+5 ≤ n →
        (stmt_sequence n s).isSome := by
      intro n s hmu hn
      obtain ⟨m, rfl⟩ : ∃ m, n = m + 1 := ⟨n-1, by omega⟩
      obtain ⟨⟨t1, s1⟩, h1⟩ :=
        Option.isSome_iff_exists.mp (Hstmt m s hmu (by omega))
      have m1 : mu s1 ≤ k+1 := le_trans (steps_statement h1).1 hmu
      obtain ⟨⟨qs, s2⟩, h2⟩ :=
        Option.isSome_iff_exists.mp (Hsql m s1 m1 (by omega))
      simp [stmt_sequence, bind, h1, h2]
    exact ⟨Hloop, Hfac, Hterm, Hsil, Hsi, Hrel, Hexp, Hread, Hwrt, Hasn,
      Helse, Hif, Hrep, Hwhl, Hdow, Hfor, Hstmt, Hsql, Hseq⟩

end TINY

namespace TINY

/-! ### Completeness of error-free trees -/

/-- The child slots a node's variant requires to be populated (the
slots the corresponding grammar rule always fills): condition and
then-branch for `if` (the else branch is optional), body and condition
for the loops, the operand(s) of the expression forms. -/
def requiredChildrenPresent : NodeKind → Tree → Tree → Tree → Bool
  | NodeKind.IfK, c0, c1, _ => !c0.isNil && !c1.isNil
  | NodeKind.RepeatK, c0, c1, _ => !c0.isNil && !c1.isNil
  | NodeKind.AssignK, c0, _, _ => !c0.isNil
  | NodeKind.ReadK, _, _, _ => true
  | NodeKind.WriteK, c0, _, _ => !c0.isNil
  | NodeKind.WhileK, c0, c1, _ => !c0.isNil && !c1.isNil
  | NodeKind.DoWhileK, c0, c1, _ => !c0.isNil && !c1.isNil
  | NodeKind.ForK, c0, c1, c2 => !c0.isNil && !c1.isNil && !c2.isNil
  | NodeKind.OpK, c0, c1, _ => !c0.isNil && !c1.isNil
  | NodeKind.ConstK, _, _, _ => true
  | NodeKind.IdK, _, _, _ => true

/-- A tree is complete when, recursively through children and sibling
chains, every required child slot is populated. -/
def complete : Tree → Bool
  | Tree.nil => true
  | Tree.node k _ c0 c1 c2 sib =>
      requiredChildrenPresent k c0 c1 c2 && complete c0 && complete c1 &&
        complete c2 && complete sib

/-- Linking completely parsed, non-null statements keeps the chain
complete and non-null. -/
theorem sibChain_complete : ∀ l : List Tree,
    (∀ x ∈ l, complete x = true ∧ x.isNil = false) →
    complete (sibChain l) = true ∧ (l ≠ [] → (sibChain l).isNil = false) := by
  intro l
  induction l with
  | nil => intro _; exact ⟨rfl, by intro h; exact absurd rfl h⟩
  | cons t ts ih =>
    intro h
    obtain ⟨ht, hnil⟩ := h t (by simp)
    have hts := ih (fun x hx => h x (by simp [hx]))
    cases t with
    | nil => simp [Tree.isNil] at hnil
    | node k a c0 c1 c2 sib =>
      simp only [complete, Bool.and_eq_true] at ht
      obtain ⟨⟨⟨⟨hreq, h0⟩, h1⟩, h2⟩, _⟩ := ht
      refine ⟨?_, fun _ => by simp [sibChain, Tree.withSibling, Tree.isNil]⟩
      simp [sibChain, Tree.withSibling, complete, hreq, h0, h1, h2, hts.1]

end TINY

namespace TINY

theorem getToken_diags (s : PState) : (getToken s).diags = s.diags := by
  cases h : s.rest <;> simp [getToken, h]

theorem syntaxError_diags (s : PState) :
    (syntaxError s).diags = s.diags + 1 := rfl

/-- A run that records no diagnostic builds a complete tree: every
required child slot is filled by a non-null subtree, and every parsed
statement (all non-null) ends up on the sibling chain. -/
theorem complete_all : ∀ n : Nat,
    (∀ s t s', stmt_sequence n s = some (t, s') → s'.diags = s.diags →
      complete t = true ∧ t.isNil = false) ∧
    (∀ s qs s', stmt_seq_loop n s = some (qs, s') → s'.diags = s.diags →
      ∀ q ∈ qs, complete q = true ∧ q.isNil = false) ∧
    (∀ s t s', statement n s = some (t, s') → s'.diags = s.diags →
      complete t = true ∧ t.isNil = false) ∧
    (∀ s t s', if_stmt n s = some (t, s') → s'.diags = s.diags →
      complete t = true ∧ t.isNil = false) ∧
    (∀ s t s', if_else_part n s = some (t, s') → s'.diags = s.diags →
      complete t = true) ∧
    (∀ s t s', repeat_stmt n s = some (t, s') → s'.diags = s.diags →
      complete t = true ∧ t.isNil = false) ∧
    (∀ s t s', assign_stmt n s = some (t, s') → s'.diags = s.diags →
      complete t = true ∧ t.isNil = false) ∧
    (∀ s t s', read_stmt n s = some (t, s') → s'.diags = s.diags →
      complete t = true ∧ t.isNil = false) ∧
    (∀ s t s', write_stmt n s = some (t, s') → s'.diags = s.diags →
      complete t = true ∧ t.isNil = false) ∧
    (∀ s t s', exp n s = some (t, s') → s'.diags = s.diags →
      complete t = true ∧ t.isNil = false) ∧
    (∀ t0 s t s', exp_rel n t0 s = some (t, s') → s'.diags = s.diags →
      complete t0 = true → t0.isNil = false →
      complete t = true ∧ t.isNil = false) ∧
    (∀ s t s', simple_exp n s = some (t, s') → s'.diags = s.diags →
      complete t = true ∧ t.isNil = false) ∧
    (∀ t0 s t s', simple_exp_loop n t0 s = some (t, s') →
      s'.diags = s.diags → complete t0 = true → t0.isNil = false →
      complete t = true ∧ t.isNil = false) ∧
    (∀ s t s', term n s = some (t, s') → s'.diags = s.diags →
      complete t = true ∧ t.isNil = false) ∧
    (∀ t0 s t s', term_loop n t0 s = some (t, s') → s'.diags = s.diags →
      complete t0 = true → t0.isNil = false →
      complete t = true ∧ t.isNil = false) ∧
    (∀ s t s', factor n s = some (t, s') → s'.diags = s.diags →
      complete t = true ∧ t.isNil = false) ∧
    (∀ s t s', while_stmt n s = some (t, s') → s'.diags = s.diags →
      complete t = true ∧ t.isNil = false) ∧
    (∀ s t s', dowhile_stmt n s = some (t, s') → s'.diags = s.diags →
      complete t = true ∧ t.isNil = false) ∧
    (∀ s t s', for_stmt n s = some (t, s') → s'.diags = s.diags →
      complete t = true ∧ t.isNil = false) := by
  intro n
  induction n with
  | zero =>
    refine ⟨?_, ?_, ?_, ?_, ?_, ?_, ?_, ?_, ?_, ?_, ?_, ?_, ?_, ?_, ?_, ?_,
      ?_, ?_, ?_⟩ <;> intros <;>
      simp_all [stmt_sequence, stmt_seq_loop, statement, if_stmt, if_else_part,
        repeat_stmt, assign_stmt, read_stmt, write_stmt, exp, exp_rel,
        simple_exp, simple_exp_loop, term, term_loop, factor, while_stmt,
        dowhile_stmt, for_stmt]
  | succ n ih =>
    obtain ⟨ihseq, ihsql, ihstmt, ihif, ihelse, ihrep, ihasn, ihread, ihwrt,
      ihexp, ihrel, ihsi, ihsil, ihterm, ihterml, ihfac, ihwhl, ihdow,
      ihfor⟩ := ih
    refine ⟨?_, ?_, ?_, ?_, ?_, ?_, ?_, ?_, ?_, ?_, ?_, ?_, ?_, ?_, ?_, ?_,
      ?_, ?_, ?_⟩
    -- stmt_sequence
    · intro s t s' h hd
      simp only [stmt_sequence, bind, Option.bind_eq_some, pure,
        Option.some.injEq, Prod.mk.injEq] at h
      obtain ⟨⟨t1, s1⟩, h1, ⟨qs, s2⟩, h2, ht, rfl⟩ := h
      dsimp only at *
      subst ht
      have dA : s.diags ≤ s1.diags := (steps_statement h1).2.1
      have dB : s1.diags ≤ s2.diags := (steps_stmt_seq_loop h2).2.1
      have hd2 : s2.diags = s.diags := hd
      obtain ⟨hc1, hn1⟩ := ihstmt _ _ _ h1 (by omega)
      have hqs := ihsql _ _ _ h2 (by omega)
      have hall : ∀ x ∈ (t1 :: qs).filter (fun q => !q.isNil),
          complete x = true ∧ x.isNil = false := by
        intro x hx
        rw [List.mem_filter] at hx
        rcases List.mem_cons.mp hx.1 with rfl | hmem
        · exact ⟨hc1, hn1⟩
        · exact hqs x hmem
      have hres := sibChain_complete _ hall
      refine ⟨hres.1, ?_⟩
      apply hres.2
      simp [List.filter_cons, hn1]
    -- stmt_seq_loop
    · intro s qs s' h hd
      simp only [stmt_seq_loop] at h
      split at h
      · simp only [pure, Option.some.injEq, Prod.mk.injEq] at h
        obtain ⟨hq, rfl⟩ := h
        subst hq
        intro q hmem
        simp at hmem
      · simp only [bind, Option.bind_eq_some, pure, Option.some.injEq,
          Prod.mk.injEq] at h
        obtain ⟨⟨q1, s2⟩, h1, ⟨qs1, s3⟩, h2, hq, rfl⟩ := h
        dsimp only at *
        subst hq
        have dA : s.diags ≤ (pmatch TokType.SEMI s).diags :=
          (steps_pmatch TokType.SEMI s).2.1
        have dB : (pmatch TokType.SEMI s).diags ≤ s2.diags :=
          (steps_statement h1).2.1
        have dC : s2.diags ≤ s3.diags := (steps_stmt_seq_loop h2).2.1
        have hd2 : s3.diags = s.diags := hd
        obtain ⟨hcq, hnq⟩ := ihstmt _ _ _ h1 (by omega)
        have hrest := ihsql _ _ _ h2 (by omega)
        intro q hmem
        rcases List.mem_cons.mp hmem with rfl | hmem2
        · exact ⟨hcq, hnq⟩
        · exact hrest q hmem2
    -- statement
    · intro s t s' h hd
      simp only [statement] at h
      split at h
      · exact ihif _ _ _ h hd
      · exact ihrep _ _ _ h hd
      · exact ihasn _ _ _ h hd
      · exact ihread _ _ _ h hd
      · exact ihwrt _ _ _ h hd
      · exact ihwhl _ _ _ h hd
      · exact ihdow _ _ _ h hd
      · exact ihfor _ _ _ h hd
      · simp only [pure, Option.some.injEq, Prod.mk.injEq] at h
        obtain ⟨_, rfl⟩ := h
        rw [getToken_diags, syntaxError_diags] at hd
        omega
    -- if_stmt
    · intro s t s' h hd
      simp only [if_stmt, bind, Option.bind_eq_some, pure, Option.some.injEq,
        Prod.mk.injEq] at h
      obtain ⟨⟨c0, s3⟩, h1, ⟨c1, s6⟩, h2, ⟨c2, s7⟩, h3, ht, rfl⟩ := h
      dsimp only at *
      subst ht
      have dA : s.diags ≤ (pmatch TokType.IF s).diags :=
        (steps_pmatch TokType.IF s).2.1
      have dB : (pmatch TokType.IF s).diags ≤
          (pmatch TokType.LPAREN (pmatch TokType.IF s)).diags :=
        (steps_pmatch TokType.LPAREN (pmatch TokType.IF s)).2.1
      have dC : (pmatch TokType.LPAREN (pmatch TokType.IF s)).diags ≤
          s3.diags := (steps_exp h1).2.1
      have dD : s3.diags ≤ (pmatch TokType.RPAREN s3).diags :=
        (steps_pmatch TokType.RPAREN s3).2.1
      have dE : (pmatch TokType.RPAREN s3).diags ≤
          (pmatch TokType.THEN (pmatch TokType.RPAREN s3)).diags :=
        (steps_pmatch TokType.THEN (pmatch TokType.RPAREN s3)).2.1
      have dF : (pmatch TokType.THEN (pmatch TokType.RPAREN s3)).diags ≤
          s6.diags := (steps_stmt_sequence h2).2.1
      have dG : s6.diags ≤ s7.diags := (steps_if_else_part h3).2.1
      have dH : s7.diags ≤ (pmatch TokType.END s7).diags :=
        (steps_pmatch TokType.END s7).2.1
      have hd2 : (pmatch TokType.END s7).diags = s.diags := hd
      obtain ⟨hc0, hn0⟩ := ihexp _ _ _ h1 (by omega)
      obtain ⟨hc1, hn1⟩ := ihseq _ _ _ h2 (by omega)
      have hc2 := ihelse _ _ _ h3 (by omega)
      exact ⟨by simp [complete, requiredChildrenPresent, hc0, hc1, hc2,
        hn0, hn1], rfl⟩
    -- if_else_part
    · intro s t s' h hd
      simp only [if_else_part] at h
      split at h
      · have dA : s.diags ≤ (pmatch TokType.ELSE s).diags :=
          (steps_pmatch TokType.ELSE s).2.1
        exact (ihseq _ _ _ h (by
          have dB : (pmatch TokType.ELSE s).diags ≤ s'.diags :=
            (steps_stmt_sequence h).2.1
          omega)).1
      · simp only [pure, Option.some.injEq, Prod.mk.injEq] at h
        obtain ⟨ht, rfl⟩ := h
        subst ht
        rfl
    -- repeat_stmt
    · intro s t s' h hd
      simp only [repeat_stmt, bind, Option.bind_eq_some, pure,
        Option.some.injEq, Prod.mk.injEq] at h
      obtain ⟨⟨c0, s2⟩, h1, ⟨c1, s4⟩, h2, ht, rfl⟩ := h
      dsimp only at *
      subst ht
      have dA : s.diags ≤ (pmatch TokType.REPEAT s).diags :=
        (steps_pmatch TokType.REPEAT s).2.1
      have dB : (pmatch TokType.REPEAT s).diags ≤ s2.diags :=
        (steps_stmt_sequence h1).2.1
      have dC : s2.diags ≤ (pmatch TokType.UNTIL s2).diags :=
        (steps_pmatch TokType.UNTIL s2).2.1
      have dD : (pmatch TokType.UNTIL s2).diags ≤ s4.diags :=
        (steps_exp h2).2.1
      have hd2 : s4.diags = s.diags := hd
      obtain ⟨hc0, hn0⟩ := ihseq _ _ _ h1 (by omega)
      obtain ⟨hc1, hn1⟩ := ihexp _ _ _ h2 (by omega)
      exact ⟨by simp [complete, requiredChildrenPresent, hc0, hc1, hn0, hn1],
        rfl⟩
    -- assign_stmt
    · intro s t s' h hd
      simp only [assign_stmt, bind, Option.bind_eq_some, pure,
        Option.some.injEq, Prod.mk.injEq] at h
      obtain ⟨⟨c0, s3⟩, h1, ht, rfl⟩ := h
      dsimp only at *
      subst ht
      have dA : s.diags ≤ (pmatch TokType.ID s).diags :=
        (steps_pmatch TokType.ID s).2.1
      have dB : (pmatch TokType.ID s).diags ≤
          (pmatch TokType.ASSIGN (pmatch TokType.ID s)).diags :=
        (steps_pmatch TokType.ASSIGN (pmatch TokType.ID s)).2.1
      have dC : (pmatch TokType.ASSIGN (pmatch TokType.ID s)).diags ≤
          s3.diags := (steps_exp h1).2.1
      have hd2 : s3.diags = s.diags := hd
      obtain ⟨hc0, hn0⟩ := ihexp _ _ _ h1 (by omega)
      exact ⟨by simp [complete, requiredChildrenPresent, hc0, hn0], rfl⟩
    -- read_stmt
    · intro s t s' h hd
      simp only [read_stmt, pure, Option.some.injEq, Prod.mk.injEq] at h
      obtain ⟨ht, rfl⟩ := h
      subst ht
      exact ⟨rfl, rfl⟩
    -- write_stmt
    · intro s t s' h hd
      simp only [write_stmt, bind, Option.bind_eq_some, pure,
        Option.some.injEq, Prod.mk.injEq] at h
      obtain ⟨⟨c0, s2⟩, h1, ht, rfl⟩ := h
      dsimp only at *
      subst ht
      have dA : s.diags ≤ (pmatch TokType.WRITE s).diags :=
        (steps_pmatch TokType.WRITE s).2.1
      have dB : (pmatch TokType.WRITE s).diags ≤ s2.diags :=
        (steps_exp h1).2.1
      have hd2 : s2.diags = s.diags := hd
      obtain ⟨hc0, hn0⟩ := ihexp _ _ _ h1 (by omega)
      exact ⟨by simp [complete, requiredChildrenPresent, hc0, hn0], rfl⟩
    -- exp
    · intro s t s' h hd
      simp only [exp, bind, Option.bind_eq_some] at h
      obtain ⟨⟨t1, s1⟩, h1, h2⟩ := h
      dsimp only at *
      have dA : s.diags ≤ s1.diags := (steps_simple_exp h1).2.1
      have dB : s1.diags ≤ s'.diags := (steps_exp_rel h2).2.1
      obtain ⟨hc1, hn1⟩ := ihsi _ _ _ h1 (by omega)
      exact ihrel _ _ _ _ h2 (by omega) hc1 hn1
    -- exp_rel
    · intro t0 s t s' h hd hct hnt
      simp only [exp_rel] at h
      split at h
      · simp only [bind, Option.bind_eq_some, pure, Option.some.injEq,
          Prod.mk.injEq] at h
        obtain ⟨⟨r, s2⟩, h1, ht, rfl⟩ := h
        dsimp only at *
        subst ht
        have dA : s.diags ≤ (pmatch s.token.kind s).diags :=
          (steps_pmatch s.token.kind s).2.1
        have dB : (pmatch s.token.kind s).diags ≤ s2.diags :=
          (steps_simple_exp h1).2.1
        have hd2 : s2.diags = s.diags := hd
        obtain ⟨hcr, hnr⟩ := ihsi _ _ _ h1 (by omega)
        exact ⟨by simp [complete, requiredChildrenPresent, hct, hcr, hnt,
          hnr], rfl⟩
      · simp only [pure, Option.some.injEq, Prod.mk.injEq] at h
        obtain ⟨ht, rfl⟩ := h
        subst ht
        exact ⟨hct, hnt⟩
    -- simple_exp
    · intro s t s' h hd
      simp only [simple_exp, bind, Option.bind_eq_some] at h
      obtain ⟨⟨t1, s1⟩, h1, h2⟩ := h
      dsimp only at *
      have dA : s.diags ≤ s1.diags := (steps_term h1).2.1
      have dB : s1.diags ≤ s'.diags := (steps_simple_exp_loop h2).2.1
      obtain ⟨hc1, hn1⟩ := ihterm _ _ _ h1 (by omega)
      exact ihsil _ _ _ _ h2 (by omega) hc1 hn1
    -- simple_exp_loop
    · intro t0 s t s' h hd hct hnt
      simp only [simple_exp_loop] at h
      split at h
      · simp only [bind, Option.bind_eq_some] at h
        obtain ⟨⟨r, s2⟩, h1, h2⟩ := h
        dsimp only at *
        have dA : s.diags ≤ (pmatch s.token.kind s).diags :=
          (steps_pmatch s.token.kind s).2.1
        have dB : (pmatch s.token.kind s).diags ≤ s2.diags :=
          (steps_term h1).2.1
        have dC : s2.diags ≤ s'.diags := (steps_simple_exp_loop h2).2.1
        obtain ⟨hcr, hnr⟩ := ihterm _ _ _ h1 (by omega)
        refine ihsil _ _ _ _ h2 (by omega) ?_ rfl
        simp [complete, requiredChildrenPresent, hct, hcr, hnt, hnr]
      · simp only [pure, Option.some.injEq, Prod.mk.injEq] at h
        obtain ⟨ht, rfl⟩ := h
        subst ht
        exact ⟨hct, hnt⟩
    -- term
    · intro s t s' h hd
      simp only [term, bind, Option.bind_eq_some] at h
      obtain ⟨⟨t1, s1⟩, h1, h2⟩ := h
      dsimp only at *
      have dA : s.diags ≤ s1.diags := (steps_factor h1).2.1
      have dB : s1.diags ≤ s'.diags := (steps_term_loop h2).2.1
      obtain ⟨hc1, hn1⟩ := ihfac _ _ _ h1 (by omega)
      exact ihterml _ _ _ _ h2 (by omega) hc1 hn1
    -- term_loop
    · intro t0 s t s' h hd hct hnt
      simp only [term_loop] at h
      split at h
      · simp only [bind, Option.bind_eq_some] at h
        obtain ⟨⟨r, s2⟩, h1, h2⟩ := h
        dsimp only at *
        have dA : s.diags ≤ (pmatch s.token.kind s).diags :=
          (steps_pmatch s.token.kind s).2.1
        have dB : (pmatch s.token.kind s).diags ≤ s2.diags :=
          (steps_factor h1).2.1
        have dC : s2.diags ≤ s'.diags := (steps_term_loop h2).2.1
        obtain ⟨hcr, hnr⟩ := ihfac _ _ _ h1 (by omega)
        refine ihterml _ _ _ _ h2 (by omega) ?_ rfl
        simp [complete, requiredChildrenPresent, hct, hcr, hnt, hnr]
      · simp only [pure, Option.some.injEq, Prod.mk.injEq] at h
        obtain ⟨ht, rfl⟩ := h
        subst ht
        exact ⟨hct, hnt⟩
    -- factor
    · intro s t s' h hd
      simp only [factor] at h
      split at h
      · simp only [pure, Option.some.injEq, Prod.mk.injEq] at h
        obtain ⟨ht, rfl⟩ := h
        subst ht
        exact ⟨rfl, rfl⟩
      · simp only [pure, Option.some.injEq, Prod.mk.injEq] at h
        obtain ⟨ht, rfl⟩ := h
        subst ht
        exact ⟨rfl, rfl⟩
      · simp only [bind, Option.bind_eq_some, pure, Option.some.injEq,
          Prod.mk.injEq] at h
        obtain ⟨⟨t1, s2⟩, h1, ht, rfl⟩ := h
        dsimp only at *
        subst ht
        have dA : s.diags ≤ (pmatch TokType.LPAREN s).diags :=
          (steps_pmatch TokType.LPAREN s).2.1
        have dB : (pmatch TokType.LPAREN s).diags ≤ s2.diags :=
          (steps_exp h1).2.1
        have dC : s2.diags ≤ (pmatch TokType.RPAREN s2).diags :=
          (steps_pmatch TokType.RPAREN s2).2.1
        have hd2 : (pmatch TokType.RPAREN s2).diags = s.diags := hd
        exact ihexp _ _ _ h1 (by omega)
      · simp only [pure, Option.some.injEq, Prod.mk.injEq] at h
        obtain ⟨_, rfl⟩ := h
        rw [getToken_diags, syntaxError_diags] at hd
        omega
    -- while_stmt
    · intro s t s' h hd
      simp only [while_stmt, bind, Option.bind_eq_some, pure,
        Option.some.injEq, Prod.mk.injEq] at h
      obtain ⟨⟨c0, s2⟩, h1, ⟨c1, s4⟩, h2, ht, rfl⟩ := h
      dsimp only at *
      subst ht
      have dA : s.diags ≤ (pmatch TokType.WHILE s).diags :=
        (steps_pmatch TokType.WHILE s).2.1
      have dB : (pmatch TokType.WHILE s).diags ≤ s2.diags :=
        (steps_exp h1).2.1
      have dC : s2.diags ≤ (pmatch TokType.DO s2).diags :=
        (steps_pmatch TokType.DO s2).2.1
      have dD : (pmatch TokType.DO s2).diags ≤ s4.diags :=
        (steps_stmt_sequence h2).2.1
      have dE : s4.diags ≤ (pmatch TokType.ENDWHILE s4).diags :=
        (steps_pmatch TokType.ENDWHILE s4).2.1
      have hd2 : (pmatch TokType.ENDWHILE s4).diags = s.diags := hd
      obtain ⟨hc0, hn0⟩ := ihexp _ _ _ h1 (by omega)
      obtain ⟨hc1, hn1⟩ := ihseq _ _ _ h2 (by omega)
      exact ⟨by simp [complete, requiredChildrenPresent, hc0, hc1, hn0, hn1],
        rfl⟩
    -- dowhile_stmt
    · intro s t s' h hd
      simp only [dowhile_stmt, bind, Option.bind_eq_some, pure,
        Option.some.injEq, Prod.mk.injEq] at h
      obtain ⟨⟨c0, s2⟩, h1, ⟨c1, s5⟩, h2, ht, rfl⟩ := h
      dsimp only at *
      subst ht
      have dA : s.diags ≤ (pmatch TokType.DO s).diags :=
        (steps_pmatch TokType.DO s).2.1
      have dB : (pmatch TokType.DO s).diags ≤ s2.diags :=
        (steps_stmt_sequence h1).2.1
      have dC : s2.diags ≤ (pmatch TokType.WHILE s2).diags :=
        (steps_pmatch TokType.WHILE s2).2.1
      have dD : (pmatch TokType.WHILE s2).diags ≤
          (pmatch TokType.LPAREN (pmatch TokType.WHILE s2)).diags :=
        (steps_pmatch TokType.LPAREN (pmatch TokType.WHILE s2)).2.1
      have dE : (pmatch TokType.LPAREN (pmatch TokType.WHILE s2)).diags ≤
          s5.diags := (steps_exp h2).2.1
      have dF : s5.diags ≤ (pmatch TokType.RPAREN s5).diags :=
        (steps_pmatch TokType.RPAREN s5).2.1
      have hd2 : (pmatch TokType.RPAREN s5).diags = s.diags := hd
      obtain ⟨hc0, hn0⟩ := ihseq _ _ _ h1 (by omega)
      obtain ⟨hc1, hn1⟩ := ihexp _ _ _ h2 (by omega)
      exact ⟨by simp [complete, requiredChildrenPresent, hc0, hc1, hn0, hn1],
        rfl⟩
    -- for_stmt
    · intro s t s' h hd
      simp only [for_stmt, bind, Option.bind_eq_some, pure,
        Option.some.injEq, Prod.mk.injEq] at h
      obtain ⟨⟨c0, s4⟩, h1, ⟨c1, s7⟩, h2, ⟨c2, s9⟩, h3, ht, rfl⟩ := h
      dsimp only at *
      subst ht
      have dA : s.diags ≤ (pmatch TokType.FOR s).diags :=
        (steps_pmatch TokType.FOR s).2.1
      have dB : (pmatch TokType.FOR s).diags ≤
          (pmatch TokType.ID (pmatch TokType.FOR s)).diags :=
        (steps_pmatch TokType.ID (pmatch TokType.FOR s)).2.1
      have dC : (pmatch TokType.ID (pmatch TokType.FOR s)).diags ≤
          (pmatch TokType.ASSIGN (pmatch TokType.ID
            (pmatch TokType.FOR s))).diags :=
        (steps_pmatch TokType.ASSIGN (pmatch TokType.ID
          (pmatch TokType.FOR s))).2.1
      have dD : (pmatch TokType.ASSIGN (pmatch TokType.ID
          (pmatch TokType.FOR s))).diags ≤ s4.diags :=
        (steps_simple_exp h1).2.1
      have dE : s4.diags ≤ (for_direction_to s4).diags :=
        (steps_for_direction_to s4).2.1
      have dF : (for_direction_to s4).diags ≤
          (for_direction_downto (for_direction_to s4)).diags :=
        (steps_for_direction_downto (for_direction_to s4)).2.1
      have dG : (for_direction_downto (for_direction_to s4)).diags ≤
          s7.diags := (steps_simple_exp h2).2.1
      have dH : s7.diags ≤ (pmatch TokType.DO s7).diags :=
        (steps_pmatch TokType.DO s7).2.1
      have dI : (pmatch TokType.DO s7).diags ≤ s9.diags :=
        (steps_stmt_sequence h3).2.1
      have dJ : s9.diags ≤ (pmatch TokType.ENDDO s9).diags :=
        (steps_pmatch TokType.ENDDO s9).2.1
      have hd2 : (pmatch TokType.ENDDO s9).diags = s.diags := hd
      obtain ⟨hc0, hn0⟩ := ihsi _ _ _ h1 (by omega)
      obtain ⟨hc1, hn1⟩ := ihsi _ _ _ h2 (by omega)
      obtain ⟨hc2, hn2⟩ := ihseq _ _ _ h3 (by omega)
      exact ⟨by simp [complete, requiredChildrenPresent, hc0, hc1, hc2,
        hn0, hn1, hn2], rfl⟩

end TINY

namespace TINY

/-! ### Support for concrete examples and the expression-shape claims -/

/-- A reserved-word or symbol token (the lexeme is irrelevant). -/
def symTok (k : TokType) : Token := ⟨k, "", 0⟩

/-- An identifier token. -/
def idTok (s : String) : Token := ⟨TokType.ID, s, 0⟩

/-- A number token carrying its converted value. -/
def numTok (v : Int) : Token := ⟨TokType.NUM, "", v⟩

/-- The atomic expression node `factor` builds from an operand token. -/
def leaf (t : Token) : Tree :=
  match t.kind with
  | TokType.NUM =>
      Tree.node NodeKind.ConstK (Attr.val t.val) Tree.nil Tree.nil Tree.nil
        Tree.nil
  | TokType.ID =>
      Tree.node NodeKind.IdK (Attr.name t.name) Tree.nil Tree.nil Tree.nil
        Tree.nil
  | _ => Tree.nil

/-- Atomic operand token kinds. -/
def isOperand (k : TokType) : Bool :=
  match k with
  | TokType.NUM | TokType.ID => true
  | _ => false

/-- Relational operator kinds (parse.c line 139). -/
def isRelOp (k : TokType) : Bool :=
  match k with
  | TokType.LT | TokType.EQ | TokType.GT => true
  | _ => false

/-- Additive operator kinds (parse.c line 155). -/
def isAddOp (k : TokType) : Bool :=
  match k with
  | TokType.PLUS | TokType.MINUS => true
  | _ => false

/-- Multiplicative operator kinds (parse.c line 170). -/
def isMulOp (k : TokType) : Bool :=
  match k with
  | TokType.TIMES | TokType.OVER | TokType.MOD => true
  | _ => false

/-- The token kinds `statement` dispatches on (parse.c lines 69-77). -/
def isStmtStart (k : TokType) : Bool :=
  match k with
  | TokType.IF | TokType.REPEAT | TokType.ID | TokType.READ
  | TokType.WRITE | TokType.WHILE | TokType.DO | TokType.FOR => true
  | _ => false

/-- The token kinds `factor` accepts (parse.c lines 185-202). -/
def isFactorStart (k : TokType) : Bool :=
  match k with
  | TokType.NUM | TokType.ID | TokType.LPAREN => true
  | _ => false

end TINY

namespace TINY

theorem getToken_Error (s : PState) : (getToken s).Error = s.Error := by
  cases h : s.rest <;> simp [getToken, h]

/-- Fuel bound for a whole statement sequence, from `fuel_all`. -/
theorem stmt_sequence_fuel {k n : Nat} {s : PState} (hm : mu s ≤ k)
    (hn : 8*k+5 ≤ n) : (stmt_sequence n s).isSome = true :=
  (fuel_all k).2.2.2.2.2.2.2.2.2.2.2.2.2.2.2.2.2.2 n s hm hn

/-- C2: every recorded diagnostic sets the process-wide error flag, the
flag is set exactly when some diagnostic was recorded, and whenever
`parse` returns with the flag unset the returned tree is complete:
every required child slot is populated and the tree itself (hence every
statement of every sibling chain in it) is non-null. -/
theorem claim_C2 {n : Nat} {toks : List Token} {t : Tree} {s' : PState}
    (h : parse n toks = some (t, s')) :
    (s'.Error = true ↔ 0 < s'.diags) ∧
    (s'.Error = false → complete t = true ∧ t.isNil = false) := by
  simp only [parse, parseFromState, bind, Option.bind_eq_some, pure,
    Option.some.injEq, Prod.mk.injEq] at h
  obtain ⟨⟨t1, s1⟩, h1, rfl, rfl⟩ := h
  dsimp only at *
  have hd0 : (getToken (initState toks)).diags = 0 := by
    rw [getToken_diags]; rfl
  have he0 : (getToken (initState toks)).Error = false := by
    rw [getToken_Error]; rfl
  have S := steps_stmt_sequence h1
  have hE : s1.Error = decide (0 < s1.diags) := by
    have hS := S.2.2
    rw [he0, hd0] at hS
    simpa using hS
  unfold trailingCheck
  split
  · refine ⟨by rw [hE]; simp, ?_⟩
    intro hEf
    rw [hE] at hEf
    simp at hEf
    have hdeq : s1.diags = (getToken (initState toks)).diags := by omega
    exact (complete_all n).1 _ _ _ h1 hdeq
  · refine ⟨by simp [syntaxError], ?_⟩
    intro hEf
    simp [syntaxError] at hEf

/-- C7: `parse` primes the lookahead, parses one statement sequence,
records a trailing-input diagnostic exactly when the lookahead is not
end-of-input afterward, and in every case returns the tree the
statement sequence built. -/
theorem claim_C7 {n : Nat} {toks : List Token} {t : Tree} {s1 : PState}
    (h : stmt_sequence n (getToken (initState toks)) = some (t, s1)) :
    parse n toks = some (t, trailingCheck s1) ∧
    (s1.token.kind = TokType.ENDFILE → trailingCheck s1 = s1) ∧
    (s1.token.kind ≠ TokType.ENDFILE →
      trailingCheck s1 = syntaxError s1 ∧
      (trailingCheck s1).diags = s1.diags + 1 ∧
      (trailingCheck s1).Error = true) := by
  refine ⟨by simp [parse, parseFromState, bind, h], ?_, ?_⟩
  · intro hk
    simp [trailingCheck, hk]
  · intro hk
    simp [trailingCheck, hk, syntaxError]

/-- C8: the parser terminates on every finite token source: fuel linear
in the input length suffices for `parse` to return a result, for every
input, well-formed or not. -/
theorem claim_C8 (toks : List Token) :
    (parse (16 * toks.length + 5) toks).isSome = true := by
  have h0 : mu (initState toks) = 2 * toks.length := by
    simp [mu, initState, eofToken]
  have hmu : mu (getToken (initState toks)) ≤ 2 * toks.length := by
    have := (steps_getToken (initState toks)).1
    omega
  have hs := stmt_sequence_fuel (k := 2 * toks.length)
    (n := 16 * toks.length + 5) hmu (by omega)
  rw [Option.isSome_iff_exists] at hs
  obtain ⟨⟨t, s1⟩, h1⟩ := hs
  simp [parse, parseFromState, bind, h1]

/-- C9: parsing is deterministic in the token sequence: two runs from a
fresh cursor and cleared error flag over the same tokens give the same
tree and the same error outcome, whatever lookahead garbage each run
starts from. -/
theorem claim_C9 (n : Nat) (toks : List Token) (d1 d2 : Token) :
    parseFromState n { token := d1, rest := toks, Error := false, diags := 0 } =
    parseFromState n { token := d2, rest := toks, Error := false, diags := 0 } := by
  unfold parseFromState
  have : getToken { token := d1, rest := toks, Error := false, diags := 0 } =
      getToken { token := d2, rest := toks, Error := false, diags := 0 } := by
    cases toks <;> rfl
  rw [this]

end TINY

namespace TINY

/-- Example program `read x`. -/
def readToks : List Token := [symTok TokType.READ, idTok "x"]

/-- The tree `read x` parses to. -/
def readTree : Tree :=
  Tree.node NodeKind.ReadK (Attr.name "x") Tree.nil Tree.nil Tree.nil Tree.nil

/-- The parser state after parsing `read x`. -/
def readFinal : PState :=
  { token := eofToken, rest := [], Error := false, diags := 0 }

theorem claim_C2_witness :
    (readFinal.Error = true ↔ 0 < readFinal.diags) ∧
    (readFinal.Error = false →
      complete readTree = true ∧ readTree.isNil = false) :=
  claim_C2 (by decide : parse 10 readToks = some (readTree, readFinal))

theorem claim_C7_witness :
    parse 10 readToks = some (readTree, trailingCheck readFinal) :=
  (claim_C7 (by decide : stmt_sequence 10 (getToken (initState readToks)) =
    some (readTree, readFinal))).1

/-- The unrecognized-statement-start branch of `statement`. -/
theorem statement_default {n : Nat} {s : PState}
    (h : isStmtStart s.token.kind = false) :
    statement (n+1) s = some (Tree.nil, getToken (syntaxError s)) := by
  cases hk : s.token.kind <;> rw [hk] at h <;>
    first
      | exact absurd h (by decide)
      | simp [statement, hk, pure]

/-- The unrecognized-factor branch of `factor`. -/
theorem factor_default {n : Nat} {s : PState}
    (h : isFactorStart s.token.kind = false) :
    factor (n+1) s = some (Tree.nil, getToken (syntaxError s)) := by
  cases hk : s.token.kind <;> rw [hk] at h <;>
    first
      | exact absurd h (by decide)
      | simp [factor, hk, pure]

/-- The error branches skip exactly one token: one more diagnostic, the
cursor moved one token forward. -/
theorem skip_one (s : PState) :
    (getToken (syntaxError s)).diags = s.diags + 1 ∧
    (getToken (syntaxError s)).rest = s.rest.tail ∧
    (getToken (syntaxError s)).token = s.rest.headD eofToken := by
  cases h : s.rest <;> simp [getToken, syntaxError, h]

/-- C6: `match` advances the cursor by exactly one token on the
expected kind and records no diagnostic; on a mismatch it records one
diagnostic and leaves both the lookahead and the pending input
untouched; the unrecognized-statement-start and unrecognized-factor
branches each record one diagnostic and advance exactly one token. -/
theorem claim_C6 :
    (∀ (e : TokType) (s : PState), s.token.kind = e →
      pmatch e s = getToken s ∧ (pmatch e s).diags = s.diags ∧
      (pmatch e s).rest = s.rest.tail ∧
      (pmatch e s).token = s.rest.headD eofToken) ∧
    (∀ (e : TokType) (s : PState), s.token.kind ≠ e →
      pmatch e s = syntaxError s ∧ (pmatch e s).token = s.token ∧
      (pmatch e s).rest = s.rest ∧ (pmatch e s).diags = s.diags + 1) ∧
    (∀ (n : Nat) (s : PState), isStmtStart s.token.kind = false →
      statement (n+1) s = some (Tree.nil, getToken (syntaxError s)) ∧
      (getToken (syntaxError s)).diags = s.diags + 1 ∧
      (getToken (syntaxError s)).rest = s.rest.tail) ∧
    (∀ (n : Nat) (s : PState), isFactorStart s.token.kind = false →
      factor (n+1) s = some (Tree.nil, getToken (syntaxError s)) ∧
      (getToken (syntaxError s)).diags = s.diags + 1 ∧
      (getToken (syntaxError s)).rest = s.rest.tail) := by
  refine ⟨?_, ?_, ?_, ?_⟩
  · intro e s hk
    rw [pmatch_consume hk]
    refine ⟨rfl, getToken_diags s, ?_, ?_⟩ <;>
      cases h : s.rest <;> simp [getToken, h]
  · intro e s hk
    rw [pmatch_mismatch hk]
    exact ⟨rfl, rfl, rfl, rfl⟩
  · intro n s h
    exact ⟨statement_default h, (skip_one s).1, (skip_one s).2.1⟩
  · intro n s h
    exact ⟨factor_default h, (skip_one s).1, (skip_one s).2.1⟩

/-- A state whose lookahead is a semicolon. -/
def stSemi : PState :=
  { token := symTok TokType.SEMI, rest := [numTok 5], Error := false,
    diags := 0 }

/-- A state whose lookahead begins no statement and no factor. -/
def stThen : PState :=
  { token := symTok TokType.THEN, rest := [numTok 5], Error := false,
    diags := 0 }

theorem claim_C6_witness :
    (pmatch TokType.SEMI stSemi = getToken stSemi ∧
      (pmatch TokType.SEMI stSemi).diags = stSemi.diags ∧
      (pmatch TokType.SEMI stSemi).rest = stSemi.rest.tail ∧
      (pmatch TokType.SEMI stSemi).token = stSemi.rest.headD eofToken) ∧
    (pmatch TokType.END stSemi = syntaxError stSemi ∧
      (pmatch TokType.END stSemi).token = stSemi.token ∧
      (pmatch TokType.END stSemi).rest = stSemi.rest ∧
      (pmatch TokType.END stSemi).diags = stSemi.diags + 1) ∧
    (statement (4+1) stThen = some (Tree.nil, getToken (syntaxError stThen)) ∧
      (getToken (syntaxError stThen)).diags = stThen.diags + 1 ∧
      (getToken (syntaxError stThen)).rest = stThen.rest.tail) ∧
    (factor (4+1) stThen = some (Tree.nil, getToken (syntaxError stThen)) ∧
      (getToken (syntaxError stThen)).diags = stThen.diags + 1 ∧
      (getToken (syntaxError stThen)).rest = stThen.rest.tail) :=
  ⟨claim_C6.1 TokType.SEMI stSemi (by decide),
   claim_C6.2.1 TokType.END stSemi (by decide),
   claim_C6.2.2.1 4 stThen (by decide),
   claim_C6.2.2.2 4 stThen (by decide)⟩

/-- C10 counterexample: the terminator set contains `while`, but a
`while` at a statement-sequence position starts a while-statement
rather than triggering the unrecognized-statement diagnostic the claim
asserts for every terminator: `repeat while x do write y endwhile
until z` parses with no diagnostic at all. -/
theorem claim_C10_counterexample :
    (parse 40 [symTok TokType.REPEAT, symTok TokType.WHILE, idTok "x",
      symTok TokType.DO, symTok TokType.WRITE, idTok "y",
      symTok TokType.ENDWHILE, symTok TokType.UNTIL, idTok "z"]).map
      (fun r => (r.2.diags, r.2.Error)) = some (0, false) := by decide

/-- Example program `if (x) then end` with an empty then-body. -/
def emptyIfToks : List Token :=
  [symTok TokType.IF, symTok TokType.LPAREN, idTok "x",
   symTok TokType.RPAREN, symTok TokType.THEN, symTok TokType.END]

/-- The tree `if (x) then end` parses to: the `end` is consumed by the
error branch of the empty body's first `statement`, so the then-branch
is null and the later `match(END)` mismatches. -/
def emptyIfTree : Tree :=
  Tree.node NodeKind.IfK Attr.none
    (Tree.node NodeKind.IdK (Attr.name "x") Tree.nil Tree.nil Tree.nil
      Tree.nil)
    Tree.nil Tree.nil Tree.nil

/-- C10 (amended): `stmt_sequence` attempts a first statement before
checking the terminator set, so a sequence position immediately holding
a terminator that starts no statement form (`end`, `else`, `until`,
`endwhile`, `enddo`, or end-of-input) gets the unrecognized-statement
diagnostic and the terminator is consumed; for the terminator `while`
the statement dispatch wins and a while-statement is parsed instead.
On `if (x) then end` this consumes the `end` and records two
diagnostics. -/
theorem claim_C10 :
    (∀ (n : Nat) (s : PState),
      (s.token.kind = TokType.END ∨ s.token.kind = TokType.ELSE ∨
       s.token.kind = TokType.UNTIL ∨ s.token.kind = TokType.ENDWHILE ∨
       s.token.kind = TokType.ENDDO ∨ s.token.kind = TokType.ENDFILE) →
      statement (n+1) s = some (Tree.nil, getToken (syntaxError s)) ∧
      (getToken (syntaxError s)).diags = s.diags + 1 ∧
      (getToken (syntaxError s)).rest = s.rest.tail) ∧
    parse 40 emptyIfToks = some (emptyIfTree,
      { token := eofToken, rest := [], Error := true, diags := 2 }) := by
  refine ⟨?_, by decide⟩
  intro n s h
  have hss : isStmtStart s.token.kind = false := by
    rcases h with h | h | h | h | h | h <;> rw [h] <;> rfl
  exact ⟨statement_default hss, (skip_one s).1, (skip_one s).2.1⟩

/-- A state whose lookahead is the terminator `end`. -/
def stEnd : PState :=
  { token := symTok TokType.END, rest := [symTok TokType.SEMI],
    Error := false, diags := 0 }

theorem claim_C10_witness :
    statement (4+1) stEnd = some (Tree.nil, getToken (syntaxError stEnd)) ∧
    (getToken (syntaxError stEnd)).diags = stEnd.diags + 1 ∧
    (getToken (syntaxError stEnd)).rest = stEnd.rest.tail :=
  claim_C10.1 4 stEnd (Or.inl (by decide))

/-- `for i := 1 to 10 do write i enddo`. -/
def forToksTo : List Token :=
  [symTok TokType.FOR, idTok "i", symTok TokType.ASSIGN, numTok 1,
   symTok TokType.TO, numTok 10, symTok TokType.DO, symTok TokType.WRITE,
   idTok "i", symTok TokType.ENDDO]

/-- The same program with the direction keyword missing. -/
def forToksNone : List Token :=
  [symTok TokType.FOR, idTok "i", symTok TokType.ASSIGN, numTok 1,
   numTok 10, symTok TokType.DO, symTok TokType.WRITE, idTok "i",
   symTok TokType.ENDDO]

/-- The same program with `to` immediately followed by `downto`. -/
def forToksBoth : List Token :=
  [symTok TokType.FOR, idTok "i", symTok TokType.ASSIGN, numTok 1,
   symTok TokType.TO, symTok TokType.DOWNTO, numTok 10, symTok TokType.DO,
   symTok TokType.WRITE, idTok "i", symTok TokType.ENDDO]

/-- The `For` node all three variants parse to. -/
def forTreeI : Tree :=
  Tree.node NodeKind.ForK (Attr.name "i")
    (Tree.node NodeKind.ConstK (Attr.val 1) Tree.nil Tree.nil Tree.nil
      Tree.nil)
    (Tree.node NodeKind.ConstK (Attr.val 10) Tree.nil Tree.nil Tree.nil
      Tree.nil)
    (Tree.node NodeKind.WriteK Attr.none
      (Tree.node NodeKind.IdK (Attr.name "i") Tree.nil Tree.nil Tree.nil
        Tree.nil)
      Tree.nil Tree.nil Tree.nil)
    Tree.nil

/-- The clean final state: all input consumed, no diagnostic. -/
def cleanFinal : PState :=
  { token := eofToken, rest := [], Error := false, diags := 0 }

/-- C1 counterexample: the claim asserts a diagnostic whenever the
directional-keyword position holds neither `to` nor `downto`, but
`for i := 1 10 do write i enddo` parses with the error flag clear and
no diagnostic recorded. -/
theorem claim_C1_counterexample :
    (parse 40 forToksNone).map (fun r => (r.2.Error, r.2.diags)) =
      some (false, 0) := by decide

/-- C1 (amended): `for i := 1 to 10 do write i enddo` parses to a `For`
node with name `i`, child 0 = constant 1, child 1 = constant 10,
child 2 = a one-statement body sequence; but each directional keyword
is consumed by its own independent check, so the direction position may
hold `to`, nothing, or `to` immediately followed by `downto`, all
silently yielding the same tree, and the direction checks never record
a diagnostic. -/
theorem claim_C1 :
    parse 40 forToksTo = some (forTreeI, cleanFinal) ∧
    parse 40 forToksNone = some (forTreeI, cleanFinal) ∧
    parse 40 forToksBoth = some (forTreeI, cleanFinal) ∧
    (∀ s : PState, (for_direction_to s).diags = s.diags ∧
      (for_direction_downto s).diags = s.diags) := by
  refine ⟨by decide, by decide, by decide, ?_⟩
  intro s
  constructor
  · unfold for_direction_to
    split
    · rw [pmatch_consume (by assumption)]
      exact getToken_diags s
    · rfl
  · unfold for_direction_downto
    split
    · rw [pmatch_consume (by assumption)]
      exact getToken_diags s
    · rfl

end TINY


namespace TINY

/-! ### Small-step evaluation lemmas for the expression engine -/

theorem isOperand_iff {k : TokType} : isOperand k = true ↔
    k = TokType.NUM ∨ k = TokType.ID := by
  cases k <;> simp [isOperand]

theorem addOp_cond {k : TokType} (h : isAddOp k = true) :
    k = TokType.PLUS ∨ k = TokType.MINUS := by
  cases k <;> simp_all [isAddOp]

theorem mulOp_cond {k : TokType} (h : isMulOp k = true) :
    k = TokType.TIMES ∨ k = TokType.OVER ∨ k = TokType.MOD := by
  cases k <;> simp_all [isMulOp]

theorem relOp_cond {k : TokType} (h : isRelOp k = true) :
    k = TokType.LT ∨ k = TokType.EQ ∨ k = TokType.GT := by
  cases k <;> simp_all [isRelOp]

theorem not_mulOp_cond {k : TokType} (h : isMulOp k = false) :
    ¬(k = TokType.TIMES ∨ k = TokType.OVER ∨ k = TokType.MOD) := by
  cases k <;> simp_all [isMulOp]

theorem not_addOp_cond {k : TokType} (h : isAddOp k = false) :
    ¬(k = TokType.PLUS ∨ k = TokType.MINUS) := by
  cases k <;> simp_all [isAddOp]

theorem not_relOp_cond {k : TokType} (h : isRelOp k = false) :
    ¬(k = TokType.LT ∨ k = TokType.EQ ∨ k = TokType.GT) := by
  cases k <;> simp_all [isRelOp]

theorem addOp_not_mulOp {k : TokType} (h : isAddOp k = true) :
    isMulOp k = false := by
  cases k <;> simp_all [isAddOp, isMulOp]

theorem relOp_not_mulOp {k : TokType} (h : isRelOp k = true) :
    isMulOp k = false := by
  cases k <;> simp_all [isRelOp, isMulOp]

theorem relOp_not_addOp {k : TokType} (h : isRelOp k = true) :
    isAddOp k = false := by
  cases k <;> simp_all [isRelOp, isAddOp]

/-- `factor` on an operand builds its leaf and advances once. -/
theorem factor_operand {n : Nat} {s : PState}
    (h : isOperand s.token.kind = true) :
    factor (n+1) s = some (leaf s.token, getToken s) := by
  rcases isOperand_iff.mp h with hk | hk <;> simp [factor, leaf, pmatch, hk]

/-- The multiplicative fold stops on a non-multiplicative lookahead. -/
theorem term_loop_exit {n : Nat} {t0 : Tree} {s : PState}
    (h : isMulOp s.token.kind = false) :
    term_loop (n+1) t0 s = some (t0, s) := by
  rw [term_loop, if_neg (not_mulOp_cond h)]
  rfl

/-- The additive fold stops on a non-additive lookahead. -/
theorem simple_exp_loop_exit {n : Nat} {t0 : Tree} {s : PState}
    (h : isAddOp s.token.kind = false) :
    simple_exp_loop (n+1) t0 s = some (t0, s) := by
  rw [simple_exp_loop, if_neg (not_addOp_cond h)]
  rfl

/-- `exp_rel` does nothing on a non-relational lookahead. -/
theorem exp_rel_exit {n : Nat} {t0 : Tree} {s : PState}
    (h : isRelOp s.token.kind = false) :
    exp_rel (n+1) t0 s = some (t0, s) := by
  rw [exp_rel, if_neg (not_relOp_cond h)]
  rfl

/-- A `term` that is a single operand. -/
theorem term_operand {n : Nat} {s : PState}
    (h1 : isOperand s.token.kind = true)
    (h2 : isMulOp (getToken s).token.kind = false) :
    term (n+2) s = some (leaf s.token, getToken s) := by
  rw [term, factor_operand h1]
  show term_loop (n+1) (leaf s.token) (getToken s) = _
  exact term_loop_exit h2

/-- A `simple_exp` that is a single operand. -/
theorem simple_exp_atom {n : Nat} {s : PState}
    (h1 : isOperand s.token.kind = true)
    (h2 : isMulOp (getToken s).token.kind = false)
    (h3 : isAddOp (getToken s).token.kind = false) :
    simple_exp (n+3) s = some (leaf s.token, getToken s) := by
  rw [simple_exp, term_operand h1 h2]
  show simple_exp_loop (n+2) (leaf s.token) (getToken s) = _
  exact simple_exp_loop_exit h3

/-- One iteration of the additive fold: the accumulator becomes the
left child of a fresh operator node. -/
theorem simple_exp_loop_step {n : Nat} {t0 : Tree} {s : PState} {t' : Tree}
    {s' : PState} (h1 : isAddOp s.token.kind = true)
    (ht : term n (getToken s) = some (t', s')) :
    simple_exp_loop (n+1) t0 s =
      simple_exp_loop n
        (Tree.node NodeKind.OpK (Attr.op s.token.kind) t0 t' Tree.nil
          Tree.nil) s' := by
  rw [simple_exp_loop, if_pos (addOp_cond h1)]
  dsimp only
  rw [pmatch_consume rfl, ht]
  rfl

/-- One iteration of the multiplicative fold. -/
theorem term_loop_step {n : Nat} {t0 : Tree} {s : PState} {t' : Tree}
    {s' : PState} (h1 : isMulOp s.token.kind = true)
    (hf : factor n (getToken s) = some (t', s')) :
    term_loop (n+1) t0 s =
      term_loop n
        (Tree.node NodeKind.OpK (Attr.op s.token.kind) t0 t' Tree.nil
          Tree.nil) s' := by
  rw [term_loop, if_pos (mulOp_cond h1)]
  dsimp only
  rw [pmatch_consume rfl, hf]
  rfl

/-- `exp` after its leading `simple_exp` hands over to the relational
step. -/
theorem exp_eval {n : Nat} {s : PState} {t1 : Tree} {s1 : PState}
    (h : simple_exp n s = some (t1, s1)) :
    exp (n+1) s = exp_rel n t1 s1 := by
  rw [exp, h]
  rfl

/-- The relational step consumes exactly one relational operator and
one more `simple_exp`. -/
theorem exp_rel_step {n : Nat} {t0 : Tree} {s : PState} {t' : Tree}
    {s' : PState} (h1 : isRelOp s.token.kind = true)
    (h2 : simple_exp n (getToken s) = some (t', s')) :
    exp_rel (n+1) t0 s =
      some (Tree.node NodeKind.OpK (Attr.op s.token.kind) t0 t' Tree.nil
        Tree.nil, s') := by
  rw [exp_rel, if_pos (relOp_cond h1)]
  dsimp only
  rw [pmatch_consume rfl, h2]
  rfl

/-- A two-operand multiplicative `term`. -/
theorem term_fold2 {n : Nat} {s : PState}
    (h1 : isOperand s.token.kind = true)
    (h2 : isMulOp (getToken s).token.kind = true)
    (h3 : isOperand (getToken (getToken s)).token.kind = true)
    (h4 : isMulOp (getToken (getToken (getToken s))).token.kind = false) :
    term (n+4) s =
      some (Tree.node NodeKind.OpK (Attr.op (getToken s).token.kind)
        (leaf s.token) (leaf (getToken (getToken s)).token) Tree.nil
        Tree.nil, getToken (getToken (getToken s))) := by
  rw [term, factor_operand h1]
  show term_loop (n+3) (leaf s.token) (getToken s) = _
  rw [term_loop_step h2 (factor_operand h3)]
  exact term_loop_exit h4

/-- A two-operand additive `simple_exp`. -/
theorem simple_exp_fold2 {n : Nat} {s : PState}
    (h1 : isOperand s.token.kind = true)
    (h2 : isAddOp (getToken s).token.kind = true)
    (h3 : isOperand (getToken (getToken s)).token.kind = true)
    (h4 : isMulOp (getToken (getToken (getToken s))).token.kind = false)
    (h5 : isAddOp (getToken (getToken (getToken s))).token.kind = false) :
    simple_exp (n+4) s =
      some (Tree.node NodeKind.OpK (Attr.op (getToken s).token.kind)
        (leaf s.token) (leaf (getToken (getToken s)).token) Tree.nil
        Tree.nil, getToken (getToken (getToken s))) := by
  rw [simple_exp, term_operand h1 (addOp_not_mulOp h2)]
  show simple_exp_loop (n+3) (leaf s.token) (getToken s) = _
  rw [simple_exp_loop_step h2 (term_operand h3 h4)]
  exact simple_exp_loop_exit h5

end TINY

namespace TINY

/-- C3: additive and multiplicative operator parsing is strictly
left-associative: on `operand op operand op operand` at one precedence
level the root is the last operator, its left child the subtree for the
earlier prefix, its right child the last operand — for any mix of
operators of the level and any operand payloads. -/
theorem claim_C3 :
    (∀ (n : Nat) (a b c o1 o2 : Token) (e : Bool) (d : Nat),
      isOperand a.kind = true → isOperand b.kind = true →
      isOperand c.kind = true → isAddOp o1.kind = true →
      isAddOp o2.kind = true →
      simple_exp (n+12)
          { token := a, rest := [o1, b, o2, c], Error := e, diags := d } =
        some (Tree.node NodeKind.OpK (Attr.op o2.kind)
          (Tree.node NodeKind.OpK (Attr.op o1.kind) (leaf a) (leaf b)
            Tree.nil Tree.nil)
          (leaf c) Tree.nil Tree.nil,
          { token := eofToken, rest := [], Error := e, diags := d })) ∧
    (∀ (n : Nat) (a b c o1 o2 : Token) (e : Bool) (d : Nat),
      isOperand a.kind = true → isOperand b.kind = true →
      isOperand c.kind = true → isMulOp o1.kind = true →
      isMulOp o2.kind = true →
      term (n+12)
          { token := a, rest := [o1, b, o2, c], Error := e, diags := d } =
        some (Tree.node NodeKind.OpK (Attr.op o2.kind)
          (Tree.node NodeKind.OpK (Attr.op o1.kind) (leaf a) (leaf b)
            Tree.nil Tree.nil)
          (leaf c) Tree.nil Tree.nil,
          { token := eofToken, rest := [], Error := e, diags := d })) := by
  constructor
  · intro n a b c o1 o2 e d ha hb hc h1 h2
    rw [simple_exp,
      @term_operand (n+9) ⟨a, [o1, b, o2, c], e, d⟩ ha (addOp_not_mulOp h1)]
    show simple_exp_loop (n+11) (leaf a) ⟨o1, [b, o2, c], e, d⟩ = _
    rw [@simple_exp_loop_step (n+10) (leaf a) ⟨o1, [b, o2, c], e, d⟩ (leaf b)
          ⟨o2, [c], e, d⟩ h1
          (@term_operand (n+8) ⟨b, [o2, c], e, d⟩ hb (addOp_not_mulOp h2)),
        @simple_exp_loop_step (n+9) _ ⟨o2, [c], e, d⟩ (leaf c)
          ⟨eofToken, [], e, d⟩ h2
          (@term_operand (n+7) ⟨c, [], e, d⟩ hc rfl),
        @simple_exp_loop_exit (n+8) _ ⟨eofToken, [], e, d⟩ rfl]
  · intro n a b c o1 o2 e d ha hb hc h1 h2
    rw [term, @factor_operand (n+10) ⟨a, [o1, b, o2, c], e, d⟩ ha]
    show term_loop (n+11) (leaf a) ⟨o1, [b, o2, c], e, d⟩ = _
    rw [@term_loop_step (n+10) (leaf a) ⟨o1, [b, o2, c], e, d⟩ (leaf b)
          ⟨o2, [c], e, d⟩ h1
          (@factor_operand (n+9) ⟨b, [o2, c], e, d⟩ hb),
        @term_loop_step (n+9) _ ⟨o2, [c], e, d⟩ (leaf c)
          ⟨eofToken, [], e, d⟩ h2
          (@factor_operand (n+8) ⟨c, [], e, d⟩ hc),
        @term_loop_exit (n+8) _ ⟨eofToken, [], e, d⟩ rfl]

theorem claim_C3_witness :
    simple_exp (0+12)
        ⟨numTok 1,
         [symTok TokType.MINUS, numTok 2, symTok TokType.MINUS, numTok 3],
         false, 0⟩ =
      some (Tree.node NodeKind.OpK (Attr.op (symTok TokType.MINUS).kind)
        (Tree.node NodeKind.OpK (Attr.op (symTok TokType.MINUS).kind)
          (leaf (numTok 1)) (leaf (numTok 2)) Tree.nil Tree.nil)
        (leaf (numTok 3)) Tree.nil Tree.nil,
        { token := eofToken, rest := [], Error := false, diags := 0 }) :=
  claim_C3.1 0 (numTok 1) (numTok 2) (numTok 3) (symTok TokType.MINUS)
    (symTok TokType.MINUS) false 0 rfl rfl rfl rfl rfl

/-- C4: multiplicative binds tighter than additive, which binds tighter
than relational: on `a add b mul c` the root is the additive operator
with the multiplicative subtree as its right child; on `a mul b add c`
the multiplicative subtree is the left child; on `a rel b add c` the
root is the relational operator with the additive subtree as its right
child.  The higher-precedence operator is always below, never above. -/
theorem claim_C4 :
    (∀ (n : Nat) (a b c oa om : Token) (e : Bool) (d : Nat),
      isOperand a.kind = true → isOperand b.kind = true →
      isOperand c.kind = true → isAddOp oa.kind = true →
      isMulOp om.kind = true →
      simple_exp (n+12)
          { token := a, rest := [oa, b, om, c], Error := e, diags := d } =
        some (Tree.node NodeKind.OpK (Attr.op oa.kind) (leaf a)
          (Tree.node NodeKind.OpK (Attr.op om.kind) (leaf b) (leaf c)
            Tree.nil Tree.nil)
          Tree.nil Tree.nil,
          { token := eofToken, rest := [], Error := e, diags := d })) ∧
    (∀ (n : Nat) (a b c oa om : Token) (e : Bool) (d : Nat),
      isOperand a.kind = true → isOperand b.kind = true →
      isOperand c.kind = true → isAddOp oa.kind = true →
      isMulOp om.kind = true →
      simple_exp (n+12)
          { token := a, rest := [om, b, oa, c], Error := e, diags := d } =
        some (Tree.node NodeKind.OpK (Attr.op oa.kind)
          (Tree.node NodeKind.OpK (Attr.op om.kind) (leaf a) (leaf b)
            Tree.nil Tree.nil)
          (leaf c) Tree.nil Tree.nil,
          { token := eofToken, rest := [], Error := e, diags := d })) ∧
    (∀ (n : Nat) (a b c r oa : Token) (e : Bool) (d : Nat),
      isOperand a.kind = true → isOperand b.kind = true →
      isOperand c.kind = true → isRelOp r.kind = true →
      isAddOp oa.kind = true →
      exp (n+13)
          { token := a, rest := [r, b, oa, c], Error := e, diags := d } =
        some (Tree.node NodeKind.OpK (Attr.op r.kind) (leaf a)
          (Tree.node NodeKind.OpK (Attr.op oa.kind) (leaf b) (leaf c)
            Tree.nil Tree.nil)
          Tree.nil Tree.nil,
          { token := eofToken, rest := [], Error := e, diags := d })) := by
  refine ⟨?_, ?_, ?_⟩
  · intro n a b c oa om e d ha hb hc h1 h2
    rw [simple_exp,
      @term_operand (n+9) ⟨a, [oa, b, om, c], e, d⟩ ha (addOp_not_mulOp h1)]
    show simple_exp_loop (n+11) (leaf a) ⟨oa, [b, om, c], e, d⟩ = _
    rw [@simple_exp_loop_step (n+10) (leaf a) ⟨oa, [b, om, c], e, d⟩
          (Tree.node NodeKind.OpK (Attr.op om.kind) (leaf b) (leaf c)
            Tree.nil Tree.nil)
          ⟨eofToken, [], e, d⟩ h1
          (@term_fold2 (n+6) ⟨b, [om, c], e, d⟩ hb h2 hc rfl),
        @simple_exp_loop_exit (n+9) _ ⟨eofToken, [], e, d⟩ rfl]
  · intro n a b c oa om e d ha hb hc h1 h2
    rw [simple_exp,
      @term_fold2 (n+7) ⟨a, [om, b, oa, c], e, d⟩ ha h2 hb
        (addOp_not_mulOp h1)]
    show simple_exp_loop (n+11)
      (Tree.node NodeKind.OpK (Attr.op om.kind) (leaf a) (leaf b) Tree.nil
        Tree.nil) ⟨oa, [c], e, d⟩ = _
    rw [@simple_exp_loop_step (n+10) _ ⟨oa, [c], e, d⟩ (leaf c)
          ⟨eofToken, [], e, d⟩ h1
          (@term_operand (n+8) ⟨c, [], e, d⟩ hc rfl),
        @simple_exp_loop_exit (n+9) _ ⟨eofToken, [], e, d⟩ rfl]
  · intro n a b c r oa e d ha hb hc h1 h2
    rw [@exp_eval (n+12) ⟨a, [r, b, oa, c], e, d⟩ (leaf a)
          ⟨r, [b, oa, c], e, d⟩
          (@simple_exp_atom (n+9) ⟨a, [r, b, oa, c], e, d⟩ ha
            (relOp_not_mulOp h1) (relOp_not_addOp h1)),
        @exp_rel_step (n+11) (leaf a) ⟨r, [b, oa, c], e, d⟩
          (Tree.node NodeKind.OpK (Attr.op oa.kind) (leaf b) (leaf c)
            Tree.nil Tree.nil)
          ⟨eofToken, [], e, d⟩ h1
          (@simple_exp_fold2 (n+7) ⟨b, [oa, c], e, d⟩ hb h2 hc rfl rfl)]

theorem claim_C4_witness :
    simple_exp (0+12)
        ⟨numTok 2,
         [symTok TokType.PLUS, numTok 3, symTok TokType.TIMES, numTok 4],
         false, 0⟩ =
      some (Tree.node NodeKind.OpK (Attr.op (symTok TokType.PLUS).kind)
        (leaf (numTok 2))
        (Tree.node NodeKind.OpK (Attr.op (symTok TokType.TIMES).kind)
          (leaf (numTok 3)) (leaf (numTok 4)) Tree.nil Tree.nil)
        Tree.nil Tree.nil,
        { token := eofToken, rest := [], Error := false, diags := 0 }) :=
  claim_C4.1 0 (numTok 2) (numTok 3) (numTok 4) (symTok TokType.PLUS)
    (symTok TokType.TIMES) false 0 rfl rfl rfl rfl rfl

end TINY

namespace TINY

/-- A relational operator is not a semicolon. -/
theorem relOp_ne_semi {k : TokType} (h : isRelOp k = true) :
    k ≠ TokType.SEMI := by
  cases k <;> simp_all [isRelOp]

/-- C5: an expression holds at most one relational operator.  `exp`
consumes exactly one relational operator and one more `simple_exp`,
leaving a second relational operator unconsumed with no diagnostic
recorded (first part); the statement-sequence separator check then
mismatches on that leftover operator and records a diagnostic setting
the error flag (second part), which every later step preserves (third
part); concretely, `write 1<2<3` parses with the error flag set
(fourth part). -/
theorem claim_C5 :
    (∀ (n : Nat) (a b r1 r2 : Token) (suffix : List Token) (e : Bool)
        (d : Nat),
      isOperand a.kind = true → isOperand b.kind = true →
      isRelOp r1.kind = true → isRelOp r2.kind = true →
      exp (n+5) ⟨a, r1 :: b :: r2 :: suffix, e, d⟩ =
        some (Tree.node NodeKind.OpK (Attr.op r1.kind) (leaf a) (leaf b)
          Tree.nil Tree.nil, ⟨r2, suffix, e, d⟩)) ∧
    (∀ s : PState, isRelOp s.token.kind = true →
      pmatch TokType.SEMI s = syntaxError s ∧
      (pmatch TokType.SEMI s).diags = s.diags + 1 ∧
      (pmatch TokType.SEMI s).Error = true) ∧
    (∀ (n : Nat) (s : PState) (t : Tree) (s' : PState),
      stmt_sequence n s = some (t, s') → s.Error = true →
      s'.Error = true) ∧
    (parse 40 [symTok TokType.WRITE, numTok 1, symTok TokType.LT, numTok 2,
      symTok TokType.LT, numTok 3]).map
      (fun r => (r.2.Error, r.2.diags)) = some (true, 4) := by
  refine ⟨?_, ?_, ?_, by decide⟩
  · intro n a b r1 r2 suffix e d ha hb h1 h2
    rw [@exp_eval (n+4) ⟨a, r1 :: b :: r2 :: suffix, e, d⟩ (leaf a)
          ⟨r1, b :: r2 :: suffix, e, d⟩
          (@simple_exp_atom (n+1) ⟨a, r1 :: b :: r2 :: suffix, e, d⟩ ha
            (relOp_not_mulOp h1) (relOp_not_addOp h1)),
        @exp_rel_step (n+3) (leaf a) ⟨r1, b :: r2 :: suffix, e, d⟩ (leaf b)
          ⟨r2, suffix, e, d⟩ h1
          (@simple_exp_atom n ⟨b, r2 :: suffix, e, d⟩ hb
            (relOp_not_mulOp h2) (relOp_not_addOp h2))]
  · intro s h
    rw [pmatch_mismatch (fun hc => relOp_ne_semi h hc)]
    exact ⟨rfl, rfl, rfl⟩
  · intro n s t s' h hE
    have := (steps_stmt_sequence h).2.2
    rw [hE] at this
    simpa using this

theorem claim_C5_witness :
    exp (0+5) ⟨numTok 1,
      symTok TokType.LT :: numTok 2 :: symTok TokType.LT :: [numTok 3],
      false, 0⟩ =
    some (Tree.node NodeKind.OpK (Attr.op (symTok TokType.LT).kind)
      (leaf (numTok 1)) (leaf (numTok 2)) Tree.nil Tree.nil,
      ⟨symTok TokType.LT, [numTok 3], false, 0⟩) :=
  claim_C5.1 0 (numTok 1) (numTok 2) (symTok TokType.LT)
    (symTok TokType.LT) [numTok 3] false 0 rfl rfl rfl rfl

end TINY
